import Mathlib

/-!
Verification development for the Protein-Insight interaction engine
(`server/services/pdb.ts`).  The TypeScript source is shallowly embedded:
coordinates become exact rationals, JS `Set`/`Map`/object state becomes
explicit state passing, and `Math.sqrt` distances are represented by their
exact squares (the real-valued distance is recovered with `Real.sqrt`).
-/

namespace ProteinInsight

/-- One parsed atom record (`AtomSchema` in `shared/schema.ts`).
Coordinates are exact rationals standing for the JS numbers. -/
structure Atom where
  serial : ℤ
  name : String
  altLoc : String
  resName : String
  chainID : String
  resSeq : ℤ
  iCode : String
  x : ℚ
  y : ℚ
  z : ℚ
  occupancy : ℚ
  tempFactor : ℚ
  element : String
  charge : String
  proteinName : String
deriving DecidableEq, Repr

/-- The `atomsByProtein : Record<string, Atom[]>` argument of
`analyzeInteractions`: association list in JS object key-insertion order. -/
abbrev AtomsByProtein := List (String × List Atom)

/-- `Object.values(atomsByProtein).flat()` (pdb.ts line 37). -/
def allAtomsOf (inp : AtomsByProtein) : List Atom :=
  (inp.map Prod.snd).flatten

/-- `Object.keys(atomsByProtein)` (pdb.ts line 38). -/
def proteinsOf (inp : AtomsByProtein) : List String :=
  inp.map Prod.fst

/-- Integer grid cell of an atom: `Math.floor(coord / GRID_SIZE)` with
`GRID_SIZE = 5` (pdb.ts lines 66, 70-72). -/
def cellOf (a : Atom) : ℤ × ℤ × ℤ :=
  (⌊a.x / 5⌋, ⌊a.y / 5⌋, ⌊a.z / 5⌋)

/-- The bucket of a grid cell.  The JS grid maps each cell key to the atoms
pushed into it in `allAtoms` iteration order (pdb.ts lines 67-76), which is
exactly the order-preserving filter. -/
def gridCell (atoms : List Atom) (c : ℤ × ℤ × ℤ) : List Atom :=
  atoms.filter (fun a => cellOf a = c)

/-- The 27 cell offsets scanned around an atom, in the `dx`/`dy`/`dz`
loop-nesting order of pdb.ts lines 87-89. -/
def cellOffsets : List (ℤ × ℤ × ℤ) :=
  ([-1, 0, 1] : List ℤ).flatMap fun dx =>
    ([-1, 0, 1] : List ℤ).flatMap fun dy =>
      ([-1, 0, 1] : List ℤ).map fun dz => (dx, dy, dz)

/-- Concatenation of the 27 neighboring buckets visited for one atom
(pdb.ts lines 87-93, `grid[key] || []`). -/
def neighborsOf (atoms : List Atom) (a : Atom) : List Atom :=
  (cellOffsets.map fun d => gridCell atoms (cellOf a + d)).flatten

/-- The dedup key `` `${min(a.serial,b.serial)}-${max(...)}` `` of pdb.ts
line 95.  The raw serial pair is a faithful model of the key string: the
string is determined by, and determines, the (min, max) pair. -/
def pairKey (a b : Atom) : ℤ × ℤ :=
  (min a.serial b.serial, max a.serial b.serial)

/-- Squared Euclidean distance (pdb.ts lines 102-105). -/
def distSq (a b : Atom) : ℚ :=
  (a.x - b.x) ^ 2 + (a.y - b.y) ^ 2 + (a.z - b.z) ^ 2

/-- State of the scan loop: the JS `checked : Set<string>` and the oriented
list of atom pairs for which an interaction record has been pushed. -/
structure ScanState where
  checked : Finset (ℤ × ℤ)
  pairs : List (Atom × Atom)

/-- Body of the innermost loop of pdb.ts lines 93-168 for one candidate
`atom_b`: skip if the pair key was checked, mark it checked, skip the
identical atom (same serial and same protein, line 100), then emit the pair
when the squared distance is within the 25 Å² cutoff (line 108). -/
def visitPair (a : Atom) (st : ScanState) (b : Atom) : ScanState :=
  let k := pairKey a b
  if k ∈ st.checked then st
  else
    let checked := insert k st.checked
    if a.serial = b.serial ∧ a.proteinName = b.proteinName then
      { checked := checked, pairs := st.pairs }
    else if distSq a b ≤ 25 then
      { checked := checked, pairs := st.pairs ++ [(a, b)] }
    else
      { checked := checked, pairs := st.pairs }

/-- One iteration of the outer loop (pdb.ts line 81): scan all 27
neighboring buckets of `atom_a`. -/
def visitAtom (atoms : List Atom) (st : ScanState) (a : Atom) : ScanState :=
  (neighborsOf atoms a).foldl (visitPair a) st

/-- The oriented `(atom_a, atom_b)` pairs for which pdb.ts pushes an
interaction record, in push order. -/
def emittedPairs (atoms : List Atom) : List (Atom × Atom) :=
  (atoms.foldl (visitAtom atoms) ⟨∅, []⟩).pairs

/-- `InteractionTypeSchema` of `shared/schema.ts`. -/
inductive InteractionType where
  | hydrogenBond
  | saltBridge
  | hydrophobic
  | vanDerWaals
  | piStacking
  | other
deriving DecidableEq, Repr

/-- `isHydrophobic` of pdb.ts line 116. -/
def isHydrophobic (res : String) : Bool :=
  ["ALA", "VAL", "LEU", "ILE", "MET", "PHE", "TRP", "PRO"].contains res

/-- `isCharged` of pdb.ts line 117. -/
def isCharged (res : String) : Bool :=
  ["ARG", "LYS", "ASP", "GLU", "HIS"].contains res

/-- The classification of pdb.ts lines 114-133 as a function of the two
atoms and the squared distance.  The source compares `distance < 3.5` on
`distance = Math.sqrt(distSq)`; since both sides are nonnegative this is
exactly `distSq < 12.25 = 49/4` (see `sqrt_lt_threshold_iff` below).  The
initial `"Other"` value of the source is overwritten on every branch. -/
def classify (a b : Atom) (dsq : ℚ) : InteractionType :=
  if dsq < 49 / 4 then
    if (a.element = "N" ∨ a.element = "O") ∧ (b.element = "N" ∨ b.element = "O") then
      .hydrogenBond
    else if isCharged a.resName ∧ isCharged b.resName then
      .saltBridge
    else
      .vanDerWaals
  else
    if isHydrophobic a.resName ∧ isHydrophobic b.resName then
      .hydrophobic
    else
      .vanDerWaals

/-- The emitted `Interaction` record (pdb.ts lines 135-148).  The source
field `distance = Math.sqrt(distSq)` is represented by its exact square
`distSq`; `Interaction.distance` below recovers the real value. -/
structure Interaction where
  id : String
  proteinA : String
  proteinB : String
  chainA : String
  chainB : String
  residueA : String
  residueB : String
  atomA : String
  atomB : String
  distSq : ℚ
  type : InteractionType
  isIntraMolecular : Bool
deriving DecidableEq, Repr

/-- Construction of the interaction record for an emitted pair
(pdb.ts lines 109-148). -/
def mkInteraction (a b : Atom) : Interaction where
  id := toString a.serial ++ "-" ++ toString b.serial
  proteinA := a.proteinName
  proteinB := b.proteinName
  chainA := a.chainID
  chainB := b.chainID
  residueA := a.resName ++ " " ++ toString a.resSeq
  residueB := b.resName ++ " " ++ toString b.resSeq
  atomA := a.name ++ " (" ++ a.element ++ ")"
  atomB := b.name ++ " (" ++ b.element ++ ")"
  distSq := distSq a b
  type := classify a b (distSq a b)
  isIntraMolecular := decide (a.proteinName = b.proteinName ∧ a.chainID = b.chainID)

/-- The `interactions` array of the result (pdb.ts lines 36, 150, 299). -/
def interactionsOf (inp : AtomsByProtein) : List Interaction :=
  (emittedPairs (allAtomsOf inp)).map fun p => mkInteraction p.1 p.2

/-! ### JS string and number primitives used by the source -/

/-- ASCII whitespace recognized by the JS `trim`/`parseInt`/`parseFloat`
models (the source data never carries the further Unicode spaces). -/
def jsWhitespace (c : Char) : Bool :=
  c == ' ' || c == '\t' || c == '\n' || c == '\r' || c == '\x0b' || c == '\x0c'

/-- JS `String.prototype.trim`. -/
def jsTrim (s : String) : String :=
  ⟨((s.toList.dropWhile jsWhitespace).reverse.dropWhile jsWhitespace).reverse⟩

/-- JS `String.prototype.substring(i, j)` for `i ≤ j` (the only shape the
source uses); clamps past the end of the string like JS. -/
def jsSubstring (s : String) (i j : ℕ) : String :=
  ⟨(s.toList.drop i).take (j - i)⟩

/-- JS `String.prototype.split(sep)` for a one-character separator, on
character lists: split at every occurrence, keeping empty pieces. -/
def splitCharList (c : Char) : List Char → List (List Char)
  | [] => [[]]
  | a :: rest =>
      if a = c then [] :: splitCharList c rest
      else
        match splitCharList c rest with
        | [] => [[a]]
        | g :: gs => (a :: g) :: gs

/-- JS `s.split(c)` for a one-character separator string. -/
def jsSplitChar (c : Char) (s : String) : List String :=
  (splitCharList c s.toList).map fun l => ⟨l⟩

/-- JS `String.prototype.startsWith`. -/
def jsStartsWith (s p : String) : Bool :=
  decide (s.toList.take p.toList.length = p.toList)

/-- Value of a list of decimal digit characters. -/
def digitsToNat (ds : List Char) : ℕ :=
  ds.foldl (fun n c => 10 * n + (c.toNat - 48)) 0

/-- Leading sign of a JS numeric literal. -/
def signSplit (l : List Char) : ℤ × List Char :=
  match l with
  | '-' :: r => (-1, r)
  | '+' :: r => (1, r)
  | r => (1, r)

/-- JS `parseInt(s)` on the decimal numerals occurring in fixed-width
coordinate records: leading whitespace skipped, optional sign, longest
digit prefix; `none` models the `NaN` returned when no digit is found.
(The hexadecimal `0x` form accepted by `parseInt` does not arise here.) -/
def parseIntJS (s : String) : Option ℤ :=
  let l := s.toList.dropWhile jsWhitespace
  let p := signSplit l
  let ds := p.2.takeWhile Char.isDigit
  if ds.isEmpty then none else some (p.1 * (digitsToNat ds : ℤ))

/-- JS `parseFloat(s)` on plain decimal numerals (optional sign, digits,
optional fraction); `none` models `NaN`.  Exponent forms do not arise in
fixed-width coordinate fields. -/
def parseFloatJS (s : String) : Option ℚ :=
  let l := s.toList.dropWhile jsWhitespace
  let p := signSplit l
  let intDs := p.2.takeWhile Char.isDigit
  let rest := p.2.dropWhile Char.isDigit
  match rest with
  | '.' :: r =>
      let fracDs := r.takeWhile Char.isDigit
      if intDs.isEmpty && fracDs.isEmpty then none
      else some ((p.1 : ℚ) *
        ((digitsToNat intDs : ℚ) + (digitsToNat fracDs : ℚ) / (10 : ℚ) ^ fracDs.length))
  | _ => if intDs.isEmpty then none else some ((p.1 : ℚ) * (digitsToNat intDs : ℚ))

/-! ### Chain metrics and summary (pdb.ts lines 40-63, 152-183, 289-297) -/

/-- Iteration order of a JS `Set` built by repeated insertion: each value
at its first occurrence. -/
def firstOccurrences [DecidableEq α] : List α → List α
  | [] => []
  | a :: l => a :: (firstOccurrences l).filter (fun x => x ≠ a)

/-- One element of the `chains` array (`ChainMetricsSchema`). -/
structure ChainMetric where
  proteinName : String
  chainId : String
  residueCount : ℕ
  atomCount : ℕ
  interactingResidues : ℕ
  intraProteinInteractions : ℕ
  interProteinInteractions : ℕ
deriving DecidableEq, Repr

/-- The chain metric entries built before detection (pdb.ts lines 44-63):
per input structure, per chain id in first-occurrence order, with zeroed
interaction counters. -/
def initialChainMetrics (inp : AtomsByProtein) : List ChainMetric :=
  inp.flatMap fun e =>
    (firstOccurrences (e.2.map (fun a => a.chainID))).map fun cid =>
      let chainAtoms := e.2.filter (fun a => a.chainID = cid)
      { proteinName := e.1
        chainId := cid
        residueCount := (chainAtoms.map (fun a => a.resSeq)).toFinset.card
        atomCount := chainAtoms.length
        interactingResidues := 0
        intraProteinInteractions := 0
        interProteinInteractions := 0 }

/-- Mutation of the first entry matching a predicate, as JS
`array.find(...)` followed by in-place update; no match means no change. -/
def updateFirst (p : α → Bool) (f : α → α) : List α → List α
  | [] => []
  | x :: xs => if p x then f x :: xs else x :: updateFirst p f xs

/-- `metricA.intraProteinInteractions++` (pdb.ts line 162). -/
def bumpIntraTally (m : ChainMetric) : ChainMetric :=
  { m with intraProteinInteractions := m.intraProteinInteractions + 1 }

/-- `metric.interProteinInteractions++` (pdb.ts lines 163, 166). -/
def bumpInterTally (m : ChainMetric) : ChainMetric :=
  { m with interProteinInteractions := m.interProteinInteractions + 1 }

/-- The metric updates performed when one pair is emitted (pdb.ts lines
158-167): the first entry matching `atom_a`'s structure and chain gets its
intra or inter counter bumped; the entry matching `atom_b`'s side gets its
inter counter bumped only when the two structures differ. -/
def applyMetricUpdate (ms : List ChainMetric) (ab : Atom × Atom) : List ChainMetric :=
  let a := ab.1
  let b := ab.2
  let isIntra := a.proteinName = b.proteinName ∧ a.chainID = b.chainID
  let ms1 := updateFirst
    (fun m => decide (m.proteinName = a.proteinName ∧ m.chainId = a.chainID))
    (fun m => if isIntra then bumpIntraTally m else bumpInterTally m) ms
  if a.proteinName = b.proteinName then ms1
  else
    updateFirst
      (fun m => decide (m.proteinName = b.proteinName ∧ m.chainId = b.chainID))
      bumpInterTally ms1

/-- The string key `` `${proteinName}:${chainId}` `` used for the
residue-tracking maps. -/
def chainKey (pname cid : String) : String :=
  pname ++ ":" ++ cid

/-- The keys for which `interactingResiduesByChain` is initialized
(pdb.ts lines 48-50). -/
def initializedChainKeys (inp : AtomsByProtein) : List String :=
  inp.flatMap fun e =>
    (firstOccurrences (e.2.map (fun a => a.chainID))).map fun cid => chainKey e.1 cid

/-- The `resSeq` values added to the residue set of one chain key over the
emitted pairs (pdb.ts lines 153-156; both endpoints always recorded). -/
def sideResidues (pairs : List (Atom × Atom)) (key : String) : List ℤ :=
  pairs.flatMap fun p =>
    (if chainKey p.1.proteinName p.1.chainID = key then [p.1.resSeq] else []) ++
    (if chainKey p.2.proteinName p.2.chainID = key then [p.2.resSeq] else [])

/-- Final `interactingResidues` count for a chain key (pdb.ts lines
176-179): size of the tracked set, with the `?.` guard dropping additions
for uninitialized keys and the `|| 0` default on the final read. -/
def interactingResiduesCount (inp : AtomsByProtein) (key : String) : ℕ :=
  if key ∈ initializedChainKeys inp then
    (sideResidues (emittedPairs (allAtomsOf inp)) key).toFinset.card
  else 0

/-- The final `chains` array: counters accumulated over the emitted pairs,
then the interacting-residue counts written in (pdb.ts lines 158-179). -/
def chainMetricsOf (inp : AtomsByProtein) : List ChainMetric :=
  ((emittedPairs (allAtomsOf inp)).foldl applyMetricUpdate (initialChainMetrics inp)).map
    fun m =>
      { m with interactingResidues :=
          interactingResiduesCount inp (chainKey m.proteinName m.chainId) }

/-- The `summary` object of the result (pdb.ts lines 290-297). -/
structure Summary where
  totalProteins : ℕ
  totalChains : ℕ
  totalAtoms : ℕ
  totalInteractions : ℕ
  intraProteinInteractions : ℕ
  interProteinInteractions : ℕ
deriving DecidableEq, Repr

/-- Summary counters (pdb.ts lines 181-183 and 290-297); `interCount` is
`totalInteractions - intraCount` as in the source. -/
def summaryOf (inp : AtomsByProtein) : Summary :=
  let inter := interactionsOf inp
  let intra := (inter.filter (fun i => i.isIntraMolecular)).length
  { totalProteins := (proteinsOf inp).length
    totalChains := (chainMetricsOf inp).length
    totalAtoms := (allAtomsOf inp).length
    totalInteractions := inter.length
    intraProteinInteractions := intra
    interProteinInteractions := inter.length - intra }

/-! ### Interface residues and interaction density (pdb.ts lines 186-253) -/

/-- JS `Map` upsert: `if (!m.has(k)) m.set(k, dflt); f(m.get(k))` — new
keys appended in insertion order, existing entries mutated in place. -/
def upsert [DecidableEq κ] (k : κ) (dflt : β) (f : β → β) : List (κ × β) → List (κ × β)
  | [] => [(k, f dflt)]
  | e :: rest => if e.1 = k then (e.1, f e.2) :: rest else e :: upsert k dflt f rest

/-- `parseInt(interaction.residueA.split(' ')[1])` (pdb.ts line 195);
`none` models `NaN` (also from an out-of-range index). -/
def resSeqKeyOf (residueField : String) : Option ℤ :=
  parseIntJS ((jsSplitChar ' ' residueField).getD 1 "")

/-- `interaction.residueA.split(' ')[0]` (pdb.ts line 196). -/
def resNameOf (residueField : String) : String :=
  (jsSplitChar ' ' residueField).getD 0 ""

/-- Per-residue density cell `{ name, intra, inter }`. -/
structure DensityCell where
  residueName : String
  intra : ℕ
  inter : ℕ
deriving DecidableEq, Repr

/-- The nested `densityByChain` record, chain key → residue key → cell. -/
abbrev DensityMap := List (String × List (Option ℤ × DensityCell))

/-- Increment of one density cell (pdb.ts lines 206-208, 226-228). -/
def bumpCell (isIntra : Bool) (c : DensityCell) : DensityCell :=
  if isIntra then { c with intra := c.intra + 1 } else { c with inter := c.inter + 1 }

/-- Density update for one endpoint of one interaction (pdb.ts lines
191-208 for the A side, 210-228 for the B side). -/
def densitySide (ck : String) (residueField : String) (isIntra : Bool)
    (d : DensityMap) : DensityMap :=
  upsert ck []
    (upsert (resSeqKeyOf residueField) ⟨resNameOf residueField, 0, 0⟩ (bumpCell isIntra)) d

/-- Density accumulation for one interaction: A side then B side. -/
def densityStep (d : DensityMap) (i : Interaction) : DensityMap :=
  densitySide (i.proteinB ++ ":" ++ i.chainB) i.residueB i.isIntraMolecular
    (densitySide (i.proteinA ++ ":" ++ i.chainA) i.residueA i.isIntraMolecular d)

/-- The fully accumulated `densityByChain` map (pdb.ts lines 187-229). -/
def densityOf (inp : AtomsByProtein) : DensityMap :=
  (interactionsOf inp).foldl densityStep []

/-- One element of the reported `interactionDensity` arrays. -/
structure DensityEntry where
  residueSeq : Option ℤ
  residueName : String
  intraCount : ℕ
  interCount : ℕ
  totalCount : ℕ
deriving DecidableEq, Repr

/-- Conversion of the density map to the reported arrays, sorted descending
by total (pdb.ts lines 244-253).  JS `sort` with comparator
`b.totalCount - a.totalCount` is a stable descending sort by total; a
stable sort under a total preorder has a unique result, realized here by a
stable insertion sort. -/
def interactionDensityOf (inp : AtomsByProtein) : List (String × List DensityEntry) :=
  (densityOf inp).map fun e =>
    (e.1,
      (e.2.map fun c =>
        { residueSeq := c.1
          residueName := c.2.residueName
          intraCount := c.2.intra
          interCount := c.2.inter
          totalCount := c.2.intra + c.2.inter }).insertionSort
        (fun a b => b.totalCount ≤ a.totalCount))

/-- One element of the reported `interfaceResidues` arrays. -/
structure InterfaceResidue where
  chainId : String
  residueSeq : Option ℤ
  residueName : String
  interactionCount : ℕ
  interactionTypes : List InteractionType
deriving DecidableEq, Repr

/-- JS `Set.add` on the per-residue category set, insertion order. -/
def addType (t : InteractionType) (ts : List InteractionType) : List InteractionType :=
  if ts.contains t then ts else ts ++ [t]

/-- The nested `interfaceResiduesByChain` record: chain key → residue key →
(name, categories). -/
abbrev InterfaceMap := List (String × List (Option ℤ × String × List InteractionType))

/-- Interface-residue update for one endpoint of one interaction
(pdb.ts lines 192-201, 212-221). -/
def interfaceSide (ck : String) (residueField : String) (t : InteractionType)
    (m : InterfaceMap) : InterfaceMap :=
  upsert ck []
    (upsert (resSeqKeyOf residueField) (resNameOf residueField, ([] : List InteractionType))
      (fun e => (e.1, addType t e.2))) m

/-- Interface-residue accumulation for one interaction: A side then B side. -/
def interfaceStep (m : InterfaceMap) (i : Interaction) : InterfaceMap :=
  interfaceSide (i.proteinB ++ ":" ++ i.chainB) i.residueB i.type
    (interfaceSide (i.proteinA ++ ":" ++ i.chainA) i.residueA i.type m)

/-- The reported `interfaceResidues` map (pdb.ts lines 186-241); note the
hard-coded `interactionCount: 0` at line 238. -/
def interfaceResiduesOf (inp : AtomsByProtein) : List (String × List InterfaceResidue) :=
  ((interactionsOf inp).foldl interfaceStep []).map fun e =>
    (e.1, e.2.map fun r =>
      { chainId := (jsSplitChar ':' e.1).getD 1 ""
        residueSeq := r.1
        residueName := r.2.1
        interactionCount := 0
        interactionTypes := r.2.2 })

/-! ### PDB parser (pdb.ts lines 4-32) -/

/-- The atom record as stored by `parsePDB`.  JS keeps `NaN` in numeric
fields whose text does not parse; `Option` makes that explicit (`none` =
`NaN`).  `occupancy`/`tempFactor` are defaulted by `|| 0` in the source and
therefore always carry a number. -/
structure ParsedAtom where
  serial : Option ℤ
  name : String
  altLoc : String
  resName : String
  chainID : String
  resSeq : Option ℤ
  iCode : String
  x : Option ℚ
  y : Option ℚ
  z : Option ℚ
  occupancy : ℚ
  tempFactor : ℚ
  element : String
  charge : String
  proteinName : String
deriving DecidableEq, Repr

/-- `parseFloat(...) || 0` (pdb.ts lines 22-23): `NaN` falls back to `0`;
a parsed `0` is falsy but the fallback is the same value. -/
def jsOrZero : Option ℚ → ℚ
  | none => 0
  | some q => q

/-- `content.split('\n')`. -/
def jsSplitLines (content : String) : List String :=
  jsSplitChar '\n' content

/-- `line.startsWith('ATOM') || line.startsWith('HETATM')` (pdb.ts line 9). -/
def isRecordLine (line : String) : Bool :=
  jsStartsWith line "ATOM" || jsStartsWith line "HETATM"

/-- Field extraction for one record line (pdb.ts lines 11-27). -/
def parseAtomLine (line : String) (proteinName : String) : ParsedAtom where
  serial := parseIntJS (jsTrim (jsSubstring line 6 11))
  name := jsTrim (jsSubstring line 12 16)
  altLoc := jsTrim (jsSubstring line 16 17)
  resName := jsTrim (jsSubstring line 17 20)
  chainID := jsTrim (jsSubstring line 21 22)
  resSeq := parseIntJS (jsTrim (jsSubstring line 22 26))
  iCode := jsTrim (jsSubstring line 26 27)
  x := parseFloatJS (jsTrim (jsSubstring line 30 38))
  y := parseFloatJS (jsTrim (jsSubstring line 38 46))
  z := parseFloatJS (jsTrim (jsSubstring line 46 54))
  occupancy := jsOrZero (parseFloatJS (jsTrim (jsSubstring line 54 60)))
  tempFactor := jsOrZero (parseFloatJS (jsTrim (jsSubstring line 60 66)))
  element := jsTrim (jsSubstring line 76 78)
  charge := jsTrim (jsSubstring line 78 80)
  proteinName := proteinName

/-- `parsePDB` (pdb.ts lines 4-32): every `ATOM`/`HETATM` line is pushed,
in file order; no validation is performed on any field. -/
def parsePDB (content : String) (proteinName : String) : List ParsedAtom :=
  (jsSplitLines content).foldl
    (fun acc line => if isRecordLine line then acc ++ [parseAtomLine line proteinName] else acc)
    []

/-! ### Basic facts about the geometry and the scan -/

theorem distSq_comm (a b : Atom) : distSq a b = distSq b a := by
  unfold distSq; ring

theorem distSq_nonneg (a b : Atom) : 0 ≤ distSq a b := by
  unfold distSq; positivity

theorem pairKey_comm (a b : Atom) : pairKey a b = pairKey b a := by
  unfold pairKey; rw [min_comm, max_comm]

/-- `Math.sqrt` bridge: for the nonnegative squared distance, the source
comparison `distance < 3.5` is exactly `distSq < 49/4`. -/
theorem sqrt_lt_threshold_iff (q : ℚ) : Real.sqrt (q : ℝ) < 3.5 ↔ q < 49 / 4 := by
  rw [Real.sqrt_lt' (by norm_num : (0:ℝ) < 3.5)]
  constructor
  · intro h; have : (q : ℝ) < ((49 / 4 : ℚ) : ℝ) := by push_cast; nlinarith
    exact_mod_cast this
  · intro h; have : (q : ℝ) < ((49 / 4 : ℚ) : ℝ) := by exact_mod_cast h
    push_cast at this; nlinarith

/-- Fold preservation of an invariant along a list of good elements. -/
theorem foldl_preserve {σ α : Type*} {P : σ → Prop} {Q : α → Prop} (f : σ → α → σ)
    (h : ∀ s a, P s → Q a → P (f s a)) :
    ∀ (l : List α), (∀ a ∈ l, Q a) → ∀ s, P s → P (l.foldl f s) := by
  intro l
  induction l with
  | nil => intro _ s hs; exact hs
  | cons a t ih =>
      intro hQ s hs
      exact ih (fun x hx => hQ x (List.mem_cons_of_mem _ hx)) _
        (h s a hs (hQ a (List.mem_cons_self a t)))

theorem checked_subset_visitPair (a : Atom) (st : ScanState) (b : Atom) :
    st.checked ⊆ (visitPair a st b).checked := by
  simp only [visitPair]
  split_ifs <;> simp [Finset.subset_insert]

theorem pairs_mem_visitPair {p : Atom × Atom} (a : Atom) (st : ScanState) (b : Atom)
    (h : p ∈ st.pairs) : p ∈ (visitPair a st b).pairs := by
  simp only [visitPair]
  split_ifs <;> simp [h]

theorem checked_subset_foldl_visitPair (a : Atom) (ns : List Atom) (st : ScanState) :
    st.checked ⊆ (ns.foldl (visitPair a) st).checked := by
  induction ns generalizing st with
  | nil => exact fun _ h => h
  | cons b t ih => exact fun k hk => ih _ (checked_subset_visitPair a st b hk)

theorem checked_subset_visitAtom (L : List Atom) (st : ScanState) (a : Atom) :
    st.checked ⊆ (visitAtom L st a).checked :=
  checked_subset_foldl_visitPair a _ st

theorem checked_subset_foldl_visitAtom (L : List Atom) (l : List Atom) (st : ScanState) :
    st.checked ⊆ (l.foldl (visitAtom L) st).checked := by
  induction l generalizing st with
  | nil => exact fun _ h => h
  | cons a t ih => exact fun k hk => ih _ (checked_subset_visitAtom L st a hk)

theorem mem_of_mem_neighborsOf {L : List Atom} {a b : Atom}
    (h : b ∈ neighborsOf L a) : b ∈ L := by
  unfold neighborsOf at h
  rw [List.mem_flatten] at h
  obtain ⟨l, hl, hb⟩ := h
  rw [List.mem_map] at hl
  obtain ⟨d, _, rfl⟩ := hl
  exact (List.mem_filter.mp hb).1

/-- Soundness invariant of the scan state: every recorded pair comes from
the atom list, meets the cutoff, is not the degenerate same-atom case, and
its key is marked checked; recorded keys never repeat. -/
def ScanSound (L : List Atom) (st : ScanState) : Prop :=
  (∀ p ∈ st.pairs, p.1 ∈ L ∧ p.2 ∈ L ∧ distSq p.1 p.2 ≤ 25 ∧
      ¬(p.1.serial = p.2.serial ∧ p.1.proteinName = p.2.proteinName) ∧
      pairKey p.1 p.2 ∈ st.checked) ∧
  (st.pairs.map fun p => pairKey p.1 p.2).Nodup

theorem scanSound_visitPair {L : List Atom} {a b : Atom} {st : ScanState}
    (ha : a ∈ L) (hb : b ∈ L) (h : ScanSound L st) : ScanSound L (visitPair a st b) := by
  obtain ⟨hsound, hnodup⟩ := h
  simp only [visitPair]
  split_ifs with h1 h2 h3
  · exact ⟨hsound, hnodup⟩
  · refine ⟨fun p hp => ?_, hnodup⟩
    obtain ⟨m1, m2, m3, m4, m5⟩ := hsound p hp
    exact ⟨m1, m2, m3, m4, Finset.mem_insert_of_mem m5⟩
  · constructor
    · intro p hp
      rcases List.mem_append.mp hp with hp | hp
      · obtain ⟨m1, m2, m3, m4, m5⟩ := hsound p hp
        exact ⟨m1, m2, m3, m4, Finset.mem_insert_of_mem m5⟩
      · rcases List.mem_singleton.mp hp with rfl
        exact ⟨ha, hb, h3, h2, Finset.mem_insert_self _ _⟩
    · rw [List.map_append, List.nodup_append]
      refine ⟨hnodup, List.nodup_singleton _, fun k hk hk2 => ?_⟩
      simp only [List.map_cons, List.map_nil, List.mem_singleton] at hk2
      subst hk2
      rw [List.mem_map] at hk
      obtain ⟨p, hp, hkey⟩ := hk
      exact h1 (hkey ▸ (hsound p hp).2.2.2.2)
  · refine ⟨fun p hp => ?_, hnodup⟩
    obtain ⟨m1, m2, m3, m4, m5⟩ := hsound p hp
    exact ⟨m1, m2, m3, m4, Finset.mem_insert_of_mem m5⟩

theorem scanSound_final (L : List Atom) :
    ScanSound L (L.foldl (visitAtom L) ⟨∅, []⟩) := by
  have hstep : ∀ st a, ScanSound L st → a ∈ L → ScanSound L (visitAtom L st a) := by
    intro st a hst haL
    exact foldl_preserve (visitPair a)
      (fun s b hs hbL => scanSound_visitPair haL hbL hs)
      (neighborsOf L a) (fun b hb => mem_of_mem_neighborsOf hb) st hst
  exact foldl_preserve (visitAtom L) hstep L (fun a ha => ha) _ (by constructor <;> simp)

/-- Every emitted pair comes from the input, meets the 25 Å² cutoff, and is
not the degenerate same-atom case (pdb.ts lines 100, 108). -/
theorem emitted_sound {L : List Atom} {p : Atom × Atom} (hp : p ∈ emittedPairs L) :
    p.1 ∈ L ∧ p.2 ∈ L ∧ distSq p.1 p.2 ≤ 25 ∧
      ¬(p.1.serial = p.2.serial ∧ p.1.proteinName = p.2.proteinName) := by
  obtain ⟨m1, m2, m3, m4, _⟩ := (scanSound_final L).1 p hp
  exact ⟨m1, m2, m3, m4⟩

/-- The raw dedup keys of the emitted pairs never repeat: the `checked`
set guarantees at most one record per `min-max` serial key. -/
theorem emitted_keys_nodup (L : List Atom) :
    ((emittedPairs L).map fun p => pairKey p.1 p.2).Nodup :=
  (scanSound_final L).2

/-! ### Completeness of the grid scan -/

/-- Coordinates at most 5 apart land in the same or an adjacent cell of the
edge-5 grid. -/
theorem floor_div5_bound {u v : ℚ} (h : |u - v| ≤ 5) :
    ⌊v / 5⌋ - 1 ≤ ⌊u / 5⌋ ∧ ⌊u / 5⌋ ≤ ⌊v / 5⌋ + 1 := by
  rw [abs_le] at h
  constructor
  · have h1 : v / 5 - 1 ≤ u / 5 := by linarith
    have h2 : ⌊v / 5 - (1 : ℤ)⌋ ≤ ⌊u / 5⌋ := Int.floor_le_floor (by push_cast; linarith)
    rwa [Int.floor_sub_int] at h2
  · have h2 : ⌊u / 5⌋ ≤ ⌊v / 5 + (1 : ℤ)⌋ := Int.floor_le_floor (by push_cast; linarith)
    rwa [Int.floor_add_int] at h2

theorem mem_cellOffsets {d : ℤ × ℤ × ℤ}
    (h1 : -1 ≤ d.1 ∧ d.1 ≤ 1) (h2 : -1 ≤ d.2.1 ∧ d.2.1 ≤ 1)
    (h3 : -1 ≤ d.2.2 ∧ d.2.2 ≤ 1) : d ∈ cellOffsets := by
  obtain ⟨dx, dy, dz⟩ := d
  simp only at h1 h2 h3
  have hx : dx = -1 ∨ dx = 0 ∨ dx = 1 := by omega
  have hy : dy = -1 ∨ dy = 0 ∨ dy = 1 := by omega
  have hz : dz = -1 ∨ dz = 0 ∨ dz = 1 := by omega
  rcases hx with rfl | rfl | rfl <;> rcases hy with rfl | rfl | rfl <;>
    rcases hz with rfl | rfl | rfl <;> decide

/-- Any atom within the 25 Å² cutoff of `a` is listed among the atoms of
the 27 cells scanned for `a`: the search radius equals the cutoff. -/
theorem mem_neighborsOf_of_close {L : List Atom} {a b : Atom}
    (hb : b ∈ L) (hd : distSq a b ≤ 25) : b ∈ neighborsOf L a := by
  unfold distSq at hd
  have hx : |a.x - b.x| ≤ 5 := by
    rw [abs_le]
    constructor <;> nlinarith [sq_nonneg (a.y - b.y), sq_nonneg (a.z - b.z)]
  have hy : |a.y - b.y| ≤ 5 := by
    rw [abs_le]
    constructor <;> nlinarith [sq_nonneg (a.x - b.x), sq_nonneg (a.z - b.z)]
  have hz : |a.z - b.z| ≤ 5 := by
    rw [abs_le]
    constructor <;> nlinarith [sq_nonneg (a.x - b.x), sq_nonneg (a.y - b.y)]
  have bx := floor_div5_bound (u := b.x) (v := a.x) (by rwa [abs_sub_comm])
  have by' := floor_div5_bound (u := b.y) (v := a.y) (by rwa [abs_sub_comm])
  have bz := floor_div5_bound (u := b.z) (v := a.z) (by rwa [abs_sub_comm])
  have hcell : cellOf a + (cellOf b - cellOf a) = cellOf b := by
    abel
  unfold neighborsOf
  rw [List.mem_flatten]
  refine ⟨gridCell L (cellOf a + (cellOf b - cellOf a)), ?_, ?_⟩
  · rw [List.mem_map]
    obtain ⟨bx1, bx2⟩ := bx
    obtain ⟨by1, by2⟩ := by'
    obtain ⟨bz1, bz2⟩ := bz
    refine ⟨cellOf b - cellOf a, mem_cellOffsets ?_ ?_ ?_, rfl⟩ <;>
      simp only [cellOf, Prod.mk_sub_mk] <;> constructor <;> omega
  · rw [hcell]
    unfold gridCell
    rw [List.mem_filter]
    exact ⟨hb, by simp⟩

/-- Progress invariant: once a non-degenerate key is in `checked`, the
qualifying pair carrying that key (unique when serials are globally
distinct) has been recorded in one orientation. -/
def ScanProgress (L : List Atom) (st : ScanState) : Prop :=
  ∀ k ∈ st.checked, ∀ x, x ∈ L → ∀ y, y ∈ L →
    x.serial < y.serial → (x.serial, y.serial) = k → distSq x y ≤ 25 →
    (x, y) ∈ st.pairs ∨ (y, x) ∈ st.pairs

theorem serial_inj {L : List Atom} (hs : (L.map (fun a => a.serial)).Nodup)
    {x y : Atom} (hx : x ∈ L) (hy : y ∈ L) (h : x.serial = y.serial) : x = y :=
  List.inj_on_of_nodup_map hs hx hy h

theorem scanProgress_visitPair {L : List Atom} {a b : Atom} {st : ScanState}
    (hs : (L.map (fun a => a.serial)).Nodup) (haL : a ∈ L) (hbL : b ∈ L)
    (h : ScanProgress L st) : ScanProgress L (visitPair a st b) := by
  simp only [visitPair]
  split_ifs with h1 h2 h3
  · exact h
  · intro k hk x hx y hy hxy hkey hdxy
    rcases Finset.mem_insert.mp hk with rfl | hk
    · exfalso
      have hmin : x.serial = min a.serial b.serial := congrArg Prod.fst hkey
      have hmax : y.serial = max a.serial b.serial := congrArg Prod.snd hkey
      rw [h2.1] at hmin hmax
      simp only [min_self, max_self] at hmin hmax
      exact absurd (hmin.trans hmax.symm) hxy.ne
    · exact h k hk x hx y hy hxy hkey hdxy
  · intro k hk x hx y hy hxy hkey hdxy
    rcases Finset.mem_insert.mp hk with rfl | hk
    · have hmin : x.serial = min a.serial b.serial := congrArg Prod.fst hkey
      have hmax : y.serial = max a.serial b.serial := congrArg Prod.snd hkey
      rcases le_total a.serial b.serial with hab | hab
      · rw [min_eq_left hab] at hmin
        rw [max_eq_right hab] at hmax
        have hxa : x = a := serial_inj hs hx haL hmin
        have hyb : y = b := serial_inj hs hy hbL hmax
        subst hxa hyb
        exact Or.inl (List.mem_append_right _ (List.mem_singleton.mpr rfl))
      · rw [min_eq_right hab] at hmin
        rw [max_eq_left hab] at hmax
        have hxb : x = b := serial_inj hs hx hbL hmin
        have hya : y = a := serial_inj hs hy haL hmax
        subst hxb hya
        exact Or.inr (List.mem_append_right _ (List.mem_singleton.mpr rfl))
    · rcases h k hk x hx y hy hxy hkey hdxy with hm | hm
      · exact Or.inl (List.mem_append_left _ hm)
      · exact Or.inr (List.mem_append_left _ hm)
  · intro k hk x hx y hy hxy hkey hdxy
    rcases Finset.mem_insert.mp hk with rfl | hk
    · exfalso
      have hmin : x.serial = min a.serial b.serial := congrArg Prod.fst hkey
      have hmax : y.serial = max a.serial b.serial := congrArg Prod.snd hkey
      rcases le_total a.serial b.serial with hab | hab
      · rw [min_eq_left hab] at hmin
        rw [max_eq_right hab] at hmax
        have hxa : x = a := serial_inj hs hx haL hmin
        have hyb : y = b := serial_inj hs hy hbL hmax
        subst hxa hyb
        exact h3 hdxy
      · rw [min_eq_right hab] at hmin
        rw [max_eq_left hab] at hmax
        have hxb : x = b := serial_inj hs hx hbL hmin
        have hya : y = a := serial_inj hs hy haL hmax
        subst hxb hya
        exact h3 (by rwa [distSq_comm] at hdxy)
    · exact h k hk x hx y hy hxy hkey hdxy

theorem scanProgress_final (L : List Atom)
    (hs : (L.map (fun a => a.serial)).Nodup) :
    ScanProgress L (L.foldl (visitAtom L) ⟨∅, []⟩) := by
  have hstep : ∀ st a, ScanProgress L st → a ∈ L → ScanProgress L (visitAtom L st a) := by
    intro st a hst haL
    exact foldl_preserve (visitPair a)
      (fun s b hsb hbL => scanProgress_visitPair hs haL hbL hsb)
      (neighborsOf L a) (fun b hb => mem_of_mem_neighborsOf hb) st hst
  exact foldl_preserve (visitAtom L) hstep L (fun a ha => ha) _
    (fun k hk => absurd hk (Finset.not_mem_empty k))

theorem key_mem_after_visits (a : Atom) :
    ∀ (ns : List Atom) (st : ScanState), ∀ b ∈ ns,
      pairKey a b ∈ (ns.foldl (visitPair a) st).checked := by
  intro ns
  induction ns with
  | nil => intro st b hb; cases hb
  | cons c t ih =>
      intro st b hb
      rcases List.mem_cons.mp hb with rfl | hb
      · rw [List.foldl_cons]
        apply checked_subset_foldl_visitPair
        simp only [visitPair]
        split_ifs with h1
        · exact h1
        all_goals exact Finset.mem_insert_self _ _
      · exact ih _ b hb

theorem key_mem_final {L : List Atom} {a b : Atom} (ha : a ∈ L)
    (hb : b ∈ neighborsOf L a) :
    pairKey a b ∈ (L.foldl (visitAtom L) ⟨∅, []⟩).checked := by
  suffices h : ∀ (l : List Atom) (st : ScanState), a ∈ l →
      pairKey a b ∈ (l.foldl (visitAtom L) st).checked from h L _ ha
  intro l
  induction l with
  | nil => intro st h; cases h
  | cons c t ih =>
      intro st hc
      rcases List.mem_cons.mp hc with rfl | hc
      · exact checked_subset_foldl_visitAtom L t _
          (key_mem_after_visits a (neighborsOf L a) st b hb)
      · exact ih _ hc

/-- Completeness of the grid scan for globally distinct serials: every
qualifying pair is recorded in one of its two orientations. -/
theorem emitted_complete {L : List Atom}
    (hs : (L.map (fun a => a.serial)).Nodup)
    {a b : Atom} (ha : a ∈ L) (hb : b ∈ L) (hne : a.serial ≠ b.serial)
    (hd : distSq a b ≤ 25) :
    (a, b) ∈ emittedPairs L ∨ (b, a) ∈ emittedPairs L := by
  rcases lt_or_gt_of_ne hne with hlt | hgt
  · have hk := key_mem_final ha (mem_neighborsOf_of_close hb hd)
    exact scanProgress_final L hs (pairKey a b) hk a ha b hb hlt
      (by simp [pairKey, min_eq_left hlt.le, max_eq_right hlt.le]) hd
  · have hk := key_mem_final hb
      (mem_neighborsOf_of_close ha (by rwa [distSq_comm] at hd))
    have := scanProgress_final L hs (pairKey b a) hk b hb a ha hgt
      (by simp [pairKey, min_eq_left hgt.le, max_eq_right hgt.le])
      (by rwa [distSq_comm] at hd)
    tauto

/-! ### Reference brute-force detector (spec §4.2 and §8) -/

/-- All pairs of list positions `i < j`, as value pairs in order. -/
def allPairs {α : Type*} : List α → List (α × α)
  | [] => []
  | x :: xs => (xs.map fun y => (x, y)) ++ allPairs xs

/-- Modelled from the spec: the reference brute-force O(n²) detector used
as the differential-testing oracle — every unordered pair of distinct
positions, rejected when degenerate (identical atom: same serial and same
structure), accepted when the squared distance is within 25 Å². -/
def bruteForcePairs (L : List Atom) : List (Atom × Atom) :=
  (allPairs L).filter fun p =>
    decide (distSq p.1 p.2 ≤ 25) &&
      !decide (p.1.serial = p.2.serial ∧ p.1.proteinName = p.2.proteinName)

/-! ### Helper facts about the classifier -/

theorem isCharged_iff (r : String) :
    isCharged r = true ↔ r ∈ ["ARG", "LYS", "ASP", "GLU", "HIS"] := by
  simp [isCharged, List.contains, List.elem_iff]

theorem isHydrophobic_iff (r : String) :
    isHydrophobic r = true ↔
      r ∈ ["ALA", "VAL", "LEU", "ILE", "MET", "PHE", "TRP", "PRO"] := by
  simp [isHydrophobic, List.contains, List.elem_iff]

/-- Case analysis of `classify` against the five spec rules, with the
distance conditions stated on the real square-root distance. -/
theorem classify_cases (a b : Atom) :
    ((Real.sqrt (distSq a b : ℝ) < 3.5 ∧
        (a.element = "N" ∨ a.element = "O") ∧ (b.element = "N" ∨ b.element = "O")) →
      classify a b (distSq a b) = InteractionType.hydrogenBond) ∧
    ((Real.sqrt (distSq a b : ℝ) < 3.5 ∧
        ¬((a.element = "N" ∨ a.element = "O") ∧ (b.element = "N" ∨ b.element = "O")) ∧
        a.resName ∈ ["ARG", "LYS", "ASP", "GLU", "HIS"] ∧
        b.resName ∈ ["ARG", "LYS", "ASP", "GLU", "HIS"]) →
      classify a b (distSq a b) = InteractionType.saltBridge) ∧
    ((Real.sqrt (distSq a b : ℝ) < 3.5 ∧
        ¬((a.element = "N" ∨ a.element = "O") ∧ (b.element = "N" ∨ b.element = "O")) ∧
        ¬(a.resName ∈ ["ARG", "LYS", "ASP", "GLU", "HIS"] ∧
          b.resName ∈ ["ARG", "LYS", "ASP", "GLU", "HIS"])) →
      classify a b (distSq a b) = InteractionType.vanDerWaals) ∧
    ((3.5 ≤ Real.sqrt (distSq a b : ℝ) ∧
        a.resName ∈ ["ALA", "VAL", "LEU", "ILE", "MET", "PHE", "TRP", "PRO"] ∧
        b.resName ∈ ["ALA", "VAL", "LEU", "ILE", "MET", "PHE", "TRP", "PRO"]) →
      classify a b (distSq a b) = InteractionType.hydrophobic) ∧
    ((3.5 ≤ Real.sqrt (distSq a b : ℝ) ∧
        ¬(a.resName ∈ ["ALA", "VAL", "LEU", "ILE", "MET", "PHE", "TRP", "PRO"] ∧
          b.resName ∈ ["ALA", "VAL", "LEU", "ILE", "MET", "PHE", "TRP", "PRO"])) →
      classify a b (distSq a b) = InteractionType.vanDerWaals) ∧
    classify a b (distSq a b) ≠ InteractionType.piStacking := by
  have hiff := sqrt_lt_threshold_iff (distSq a b)
  refine ⟨?_, ?_, ?_, ?_, ?_, ?_⟩
  · rintro ⟨hdist, hA, hB⟩
    rw [classify, if_pos (hiff.mp hdist), if_pos ⟨hA, hB⟩]
  · rintro ⟨hdist, hNO, hA, hB⟩
    rw [classify, if_pos (hiff.mp hdist), if_neg hNO,
      if_pos ⟨(isCharged_iff _).mpr hA, (isCharged_iff _).mpr hB⟩]
  · rintro ⟨hdist, hNO, hCH⟩
    rw [classify, if_pos (hiff.mp hdist), if_neg hNO,
      if_neg fun hand => hCH ⟨(isCharged_iff _).mp hand.1, (isCharged_iff _).mp hand.2⟩]
  · rintro ⟨hdist, hA, hB⟩
    have hge : ¬(distSq a b < 49 / 4) := fun hlt => absurd (hiff.mpr hlt) (not_lt.mpr hdist)
    rw [classify, if_neg hge,
      if_pos ⟨(isHydrophobic_iff _).mpr hA, (isHydrophobic_iff _).mpr hB⟩]
  · rintro ⟨hdist, hHP⟩
    have hge : ¬(distSq a b < 49 / 4) := fun hlt => absurd (hiff.mpr hlt) (not_lt.mpr hdist)
    rw [classify, if_neg hge,
      if_neg fun hand => hHP ⟨(isHydrophobic_iff _).mp hand.1, (isHydrophobic_iff _).mp hand.2⟩]
  · rw [classify]
    split_ifs <;> simp

/-! ### Example inputs for witnesses and counterexamples

The concrete evaluations below go through `decide`; the sealed rational
arithmetic definitions are reopened for kernel reduction. -/

unseal Rat.add Rat.sub Rat.mul Rat.inv



/-- Example-atom constructor for the concrete inputs below. -/
def exAtom (s : ℤ) (pn ch : String) (x y z : ℚ) (res el : String) (rs : ℤ) : Atom :=
  { serial := s, name := "CA", altLoc := "", resName := res, chainID := ch,
    resSeq := rs, iCode := "", x := x, y := y, z := z, occupancy := 1,
    tempFactor := 0, element := el, charge := "", proteinName := pn }

def exInputC1 : AtomsByProtein :=
  [("P", [exAtom 1 "P" "A" 0 0 0 "ALA" "C" 1]),
   ("Q", [exAtom 1 "Q" "A" 1 0 0 "ALA" "C" 1])]

def exInputC2 : AtomsByProtein :=
  [("P", [exAtom 1 "P" "A" 0 0 0 "GLY" "C" 1]),
   ("Q", [exAtom 1 "Q" "A" 2 0 0 "GLY" "C" 1])]

def exInputC4 : AtomsByProtein :=
  [("P", [exAtom 1 "P" "A" 0 0 0 "ARG" "N" 1, exAtom 2 "P" "A" 1 0 0 "LYS" "N" 2])]

def exInputC5 : AtomsByProtein :=
  [("P", [exAtom 1 "P" "A" 0 0 0 "ALA" "C" 1, exAtom 2 "P" "B" 1 0 0 "ALA" "C" 1])]

def exInputC6a : AtomsByProtein :=
  [("R", [exAtom 3 "R" "A" 0 0 0 "GLY" "C" 1, exAtom 4 "R" "B" 1 0 0 "GLY" "C" 2])]

def exInputC6b : AtomsByProtein :=
  [("R", [exAtom 4 "R" "B" 1 0 0 "GLY" "C" 2, exAtom 3 "R" "A" 0 0 0 "GLY" "C" 1])]

def exInputC7 : AtomsByProtein :=
  [("P", [exAtom 1 "P" "A" 0 0 0 "ALA" "C" 1, exAtom 2 "P" "A" 1 0 0 "ALA" "C" 2])]

def exInputC8 : AtomsByProtein :=
  [("S", [exAtom 5 "S" "A" 0 0 0 "GLY" "C" 3, exAtom 6 "S" "A" 2 0 0 "GLY" "C" 4])]

def exInputC10 : AtomsByProtein :=
  [("Q", [exAtom 7 "Q" "A" 0 0 0 "ALA" "C" 1, exAtom 8 "Q" "A" 3 0 0 "ALA" "C" 1])]

/-! ### C5: the isIntraMolecular flag -/

/-- C5: for every emitted interaction, `isIntraMolecular` is true exactly
when the two endpoint atoms share the owning-structure label and the chain
identifier; two different chains of the same structure yield `false`
(pdb.ts line 111). -/
theorem isIntraMolecular_iff_same_structure_and_chain (inp : AtomsByProtein)
    (p : Atom × Atom) (hp : p ∈ emittedPairs (allAtomsOf inp)) :
    ((mkInteraction p.1 p.2).isIntraMolecular = true ↔
      p.1.proteinName = p.2.proteinName ∧ p.1.chainID = p.2.chainID) ∧
    (p.1.proteinName = p.2.proteinName → p.1.chainID ≠ p.2.chainID →
      (mkInteraction p.1 p.2).isIntraMolecular = false) := by
  constructor
  · simp [mkInteraction]
  · intro h1 h2
    simp [mkInteraction, h1, h2]

theorem isIntraMolecular_iff_same_structure_and_chain_witness :
    (exAtom 1 "P" "A" 0 0 0 "ALA" "C" 1, exAtom 2 "P" "B" 1 0 0 "ALA" "C" 1) ∈
        emittedPairs (allAtomsOf exInputC5) ∧
    (mkInteraction (exAtom 1 "P" "A" 0 0 0 "ALA" "C" 1)
        (exAtom 2 "P" "B" 1 0 0 "ALA" "C" 1)).isIntraMolecular = false := by
  have hp : (exAtom 1 "P" "A" 0 0 0 "ALA" "C" 1, exAtom 2 "P" "B" 1 0 0 "ALA" "C" 1) ∈
      emittedPairs (allAtomsOf exInputC5) := by decide
  exact ⟨hp, (isIntraMolecular_iff_same_structure_and_chain exInputC5 _ hp).2 rfl (by decide)⟩

/-! ### C4: the classification rules -/

/-- C4: interaction classification is the total function of the two
endpoint elements, residues and the distance, with the spec's fixed
precedence; the Pi-Stacking category is never emitted. -/
theorem classification_precedence_spec (inp : AtomsByProtein)
    (p : Atom × Atom) (hp : p ∈ emittedPairs (allAtomsOf inp)) :
    ((Real.sqrt (distSq p.1 p.2 : ℝ) < 3.5 ∧
        (p.1.element = "N" ∨ p.1.element = "O") ∧
        (p.2.element = "N" ∨ p.2.element = "O")) →
      (mkInteraction p.1 p.2).type = InteractionType.hydrogenBond) ∧
    ((Real.sqrt (distSq p.1 p.2 : ℝ) < 3.5 ∧
        ¬((p.1.element = "N" ∨ p.1.element = "O") ∧
          (p.2.element = "N" ∨ p.2.element = "O")) ∧
        p.1.resName ∈ ["ARG", "LYS", "ASP", "GLU", "HIS"] ∧
        p.2.resName ∈ ["ARG", "LYS", "ASP", "GLU", "HIS"]) →
      (mkInteraction p.1 p.2).type = InteractionType.saltBridge) ∧
    ((Real.sqrt (distSq p.1 p.2 : ℝ) < 3.5 ∧
        ¬((p.1.element = "N" ∨ p.1.element = "O") ∧
          (p.2.element = "N" ∨ p.2.element = "O")) ∧
        ¬(p.1.resName ∈ ["ARG", "LYS", "ASP", "GLU", "HIS"] ∧
          p.2.resName ∈ ["ARG", "LYS", "ASP", "GLU", "HIS"])) →
      (mkInteraction p.1 p.2).type = InteractionType.vanDerWaals) ∧
    ((3.5 ≤ Real.sqrt (distSq p.1 p.2 : ℝ) ∧
        p.1.resName ∈ ["ALA", "VAL", "LEU", "ILE", "MET", "PHE", "TRP", "PRO"] ∧
        p.2.resName ∈ ["ALA", "VAL", "LEU", "ILE", "MET", "PHE", "TRP", "PRO"]) →
      (mkInteraction p.1 p.2).type = InteractionType.hydrophobic) ∧
    ((3.5 ≤ Real.sqrt (distSq p.1 p.2 : ℝ) ∧
        ¬(p.1.resName ∈ ["ALA", "VAL", "LEU", "ILE", "MET", "PHE", "TRP", "PRO"] ∧
          p.2.resName ∈ ["ALA", "VAL", "LEU", "ILE", "MET", "PHE", "TRP", "PRO"])) →
      (mkInteraction p.1 p.2).type = InteractionType.vanDerWaals) ∧
    (mkInteraction p.1 p.2).type ≠ InteractionType.piStacking :=
  classify_cases p.1 p.2

theorem classification_precedence_spec_witness :
    (mkInteraction (exAtom 1 "P" "A" 0 0 0 "ARG" "N" 1)
      (exAtom 2 "P" "A" 1 0 0 "LYS" "N" 2)).type = InteractionType.hydrogenBond := by
  have hp : (exAtom 1 "P" "A" 0 0 0 "ARG" "N" 1, exAtom 2 "P" "A" 1 0 0 "LYS" "N" 2) ∈
      emittedPairs (allAtomsOf exInputC4) := by decide
  refine (classification_precedence_spec exInputC4 _ hp).1 ⟨?_, Or.inl rfl, Or.inl rfl⟩
  rw [show distSq (exAtom 1 "P" "A" 0 0 0 "ARG" "N" 1)
      (exAtom 2 "P" "A" 1 0 0 "LYS" "N" 2) = 1 from by decide]
  exact (sqrt_lt_threshold_iff 1).mpr (by norm_num)

/-! ### C3: invariants of the interaction list -/

/-- The structure-qualified identity of an atom: owning-structure label
together with serial. -/
def sqId (a : Atom) : String × ℤ := (a.proteinName, a.serial)

/-- The hypothesis of C3: each atom serial is unique within its owning
structure. -/
def perStructureSerialsUnique (inp : AtomsByProtein) : Prop :=
  ∀ pn ∈ (allAtomsOf inp).map (fun a => a.proteinName),
    (((allAtomsOf inp).filter fun a => a.proteinName = pn).map fun a => a.serial).Nodup

instance (inp : AtomsByProtein) : Decidable (perStructureSerialsUnique inp) := by
  unfold perStructureSerialsUnique
  infer_instance

theorem pairKey_eq_of_sqId {p q : Atom × Atom}
    (h : (sqId p.1 = sqId q.1 ∧ sqId p.2 = sqId q.2) ∨
         (sqId p.1 = sqId q.2 ∧ sqId p.2 = sqId q.1)) :
    pairKey p.1 p.2 = pairKey q.1 q.2 := by
  have hser : ∀ {x y : Atom}, sqId x = sqId y → x.serial = y.serial :=
    fun h => congrArg Prod.snd h
  rcases h with ⟨h1, h2⟩ | ⟨h1, h2⟩
  · rw [pairKey, pairKey, hser h1, hser h2]
  · rw [pairKey, pairKey, hser h1, hser h2, min_comm, max_comm]

/-- C3: when serials are unique within each structure, every emitted
interaction has distance in [0, 5], no structure-qualified unordered atom
pair is recorded twice, and no atom is paired with itself. -/
theorem interaction_list_invariants (inp : AtomsByProtein)
    (h : perStructureSerialsUnique inp) :
    (∀ i ∈ interactionsOf inp,
        (0 : ℝ) ≤ Real.sqrt (i.distSq : ℝ) ∧ Real.sqrt (i.distSq : ℝ) ≤ 5) ∧
    ((emittedPairs (allAtomsOf inp)).Pairwise fun p q =>
        ¬((sqId p.1 = sqId q.1 ∧ sqId p.2 = sqId q.2) ∨
          (sqId p.1 = sqId q.2 ∧ sqId p.2 = sqId q.1))) ∧
    (∀ p ∈ emittedPairs (allAtomsOf inp), p.1 ≠ p.2) := by
  refine ⟨?_, ?_, ?_⟩
  · intro i hi
    rw [interactionsOf, List.mem_map] at hi
    obtain ⟨p, hp, rfl⟩ := hi
    have hd := (emitted_sound hp).2.2.1
    refine ⟨Real.sqrt_nonneg _, ?_⟩
    have h25 : ((mkInteraction p.1 p.2).distSq : ℝ) ≤ 25 := by
      simp only [mkInteraction]
      exact_mod_cast hd
    calc Real.sqrt ((mkInteraction p.1 p.2).distSq : ℝ)
        ≤ Real.sqrt 25 := Real.sqrt_le_sqrt h25
      _ = 5 := by
          rw [show (25 : ℝ) = 5 ^ 2 by norm_num, Real.sqrt_sq (by norm_num : (0:ℝ) ≤ 5)]
  · have hnd := emitted_keys_nodup (allAtomsOf inp)
    have hpw := List.pairwise_map.mp hnd
    exact hpw.imp fun hne hsq => hne (pairKey_eq_of_sqId hsq)
  · intro p hp heq
    exact (emitted_sound hp).2.2.2
      ⟨congrArg Atom.serial heq, congrArg Atom.proteinName heq⟩

theorem interaction_list_invariants_witness :
    perStructureSerialsUnique exInputC4 ∧
    ∀ p ∈ emittedPairs (allAtomsOf exInputC4), p.1 ≠ p.2 :=
  ⟨by decide, (interaction_list_invariants exInputC4 (by decide)).2.2⟩

/-! ### C10: interface residue counts are hard-coded zero -/

/-- C10: every `InterfaceResidue` record in the reported map carries
`interactionCount = 0` (pdb.ts line 238), regardless of how many
interactions touch the residue. -/
theorem interface_residue_count_always_zero (inp : AtomsByProtein) :
    ∀ e ∈ interfaceResiduesOf inp, ∀ r ∈ e.2, r.interactionCount = 0 := by
  intro e he r hr
  rw [interfaceResiduesOf, List.mem_map] at he
  obtain ⟨e0, _, rfl⟩ := he
  simp only at hr
  rw [List.mem_map] at hr
  obtain ⟨r0, _, rfl⟩ := hr
  rfl

theorem interface_residue_count_always_zero_witness :
    ∃ e ∈ interfaceResiduesOf exInputC10, ∃ r ∈ e.2, r.interactionCount = 0 := by
  obtain ⟨e, he, r, hr, -⟩ :
      ∃ e ∈ interfaceResiduesOf exInputC10, ∃ r ∈ e.2, True := by decide
  exact ⟨e, he, r, hr, interface_residue_count_always_zero exInputC10 e he r hr⟩

/-! ### C1 counterexample and C2 code bug: raw-serial dedup keys -/

/-- C1 counterexample: two structures whose single atoms share serial 1 and
sit 1 Å apart — the brute-force reference detector reports the pair, the
grid scan reports nothing (the self-encounter of the first atom marks the
raw key `1-1` checked). -/
theorem grid_misses_colliding_serial_pair :
    emittedPairs (allAtomsOf exInputC1) = [] ∧
    (bruteForcePairs (allAtomsOf exInputC1)).length = 1 := by decide

/-- C2: the dedup key of pdb.ts line 95 is built from raw serials, not
structure-qualified identifiers: a qualifying cross-structure pair whose
atoms share a serial is silently dropped. -/
theorem raw_serial_dedup_drops_cross_structure_pair :
    distSq (exAtom 1 "P" "A" 0 0 0 "GLY" "C" 1) (exAtom 1 "Q" "A" 2 0 0 "GLY" "C" 1) ≤ 25 ∧
    (exAtom 1 "P" "A" 0 0 0 "GLY" "C" 1).proteinName ≠
      (exAtom 1 "Q" "A" 2 0 0 "GLY" "C" 1).proteinName ∧
    interactionsOf exInputC2 = [] := by decide

/-! ### C6, C7, C8, C9 counterexamples -/

/-- C6 counterexample: reversing the atom order within one structure moves
the single cross-chain interaction's inter-counter from chain A to chain B:
per-chain metric values are not order-independent. -/
theorem chain_metrics_depend_on_order :
    ((chainMetricsOf exInputC6a).find? fun m => m.chainId == "A").map
        (fun m => m.interProteinInteractions) = some 1 ∧
    ((chainMetricsOf exInputC6b).find? fun m => m.chainId == "A").map
        (fun m => m.interProteinInteractions) = some 0 := by decide

/-- Sum of the reported per-residue intra counts of one chain key. -/
def densityIntraSum (inp : AtomsByProtein) (key : String) : ℕ :=
  (((interactionDensityOf inp).find? fun e => e.1 == key).map
    fun e => (e.2.map fun r => r.intraCount).sum).getD 0

/-- Sum of the reported per-residue inter counts of one chain key. -/
def densityInterSum (inp : AtomsByProtein) (key : String) : ℕ :=
  (((interactionDensityOf inp).find? fun e => e.1 == key).map
    fun e => (e.2.map fun r => r.interCount).sum).getD 0

/-- C7 counterexample: a single intra-chain interaction contributes to the
density map once per endpoint (total 2) but to the chain metrics only once:
the sums do not match. -/
theorem density_sum_exceeds_chain_metric :
    densityIntraSum exInputC7 "P:A" = 2 ∧
    ((chainMetricsOf exInputC7).find? fun m => m.chainId == "A").map
      (fun m => m.intraProteinInteractions) = some 1 := by decide

/-- C8 counterexample: the single emitted interaction has both endpoints on
(S, A), so the claimed per-endpoint increments would tally 2, but the code
increments only the A side: the counter reads 1. -/
theorem endpoint_b_not_incremented :
    (emittedPairs (allAtomsOf exInputC8)).length = 1 ∧
    (∀ p ∈ emittedPairs (allAtomsOf exInputC8),
      p.1.proteinName = "S" ∧ p.1.chainID = "A" ∧
      p.2.proteinName = "S" ∧ p.2.chainID = "A") ∧
    ((chainMetricsOf exInputC8).map fun m => m.intraProteinInteractions) = [1] := by decide

def exContentC9 : String :=
  "ATOM  abcde  CA  ALA A   1      0.000   0.000   0.000  1.00  0.00           C"

/-- C9 counterexample: a record line whose serial field is unparseable is
not excluded — `parsePDB` still produces one atom, carrying `NaN`
(modelled `none`) in the serial field. -/
theorem malformed_record_still_parsed :
    (parsePDB exContentC9 "P").length = 1 ∧
    ((parsePDB exContentC9 "P").map fun a => a.serial) = [none] := by decide

/-! ### C9 amended: the parser excludes nothing -/

theorem parsePDB_foldl_general (name : String) :
    ∀ (lines : List String) (acc : List ParsedAtom),
      lines.foldl
          (fun acc line =>
            if isRecordLine line then acc ++ [parseAtomLine line name] else acc) acc =
        acc ++ (lines.filter isRecordLine).map fun l => parseAtomLine l name := by
  intro lines
  induction lines with
  | nil => intro acc; simp
  | cons l t ih =>
      intro acc
      by_cases h : isRecordLine l = true <;>
        simp [h, ih, List.filter_cons]

/-- `parsePDB` is the order-preserving map over the record lines. -/
theorem parsePDB_eq_filterMap (content name : String) :
    parsePDB content name =
      ((jsSplitLines content).filter isRecordLine).map fun l => parseAtomLine l name := by
  rw [parsePDB, parsePDB_foldl_general, List.nil_append]

/-- C9 amended: `parsePDB` excludes no record line — each `ATOM`/`HETATM`
line yields exactly one atom even when mandatory fields are unparseable
(they are stored as `NaN`, modelled `none`), while unparseable occupancy
and temperature-factor fields become 0. -/
theorem parser_totality_and_defaults (content name : String) :
    (parsePDB content name).length =
      ((jsSplitLines content).filter isRecordLine).length ∧
    ∀ a ∈ parsePDB content name,
      ∃ line ∈ jsSplitLines content, isRecordLine line = true ∧
        a = parseAtomLine line name ∧
        (parseFloatJS (jsTrim (jsSubstring line 54 60)) = none → a.occupancy = 0) ∧
        (parseFloatJS (jsTrim (jsSubstring line 60 66)) = none → a.tempFactor = 0) := by
  constructor
  · rw [parsePDB_eq_filterMap, List.length_map]
  · intro a ha
    rw [parsePDB_eq_filterMap, List.mem_map] at ha
    obtain ⟨line, hline, rfl⟩ := ha
    rw [List.mem_filter] at hline
    refine ⟨line, hline.1, hline.2, rfl, ?_, ?_⟩
    · intro hnone
      simp [parseAtomLine, hnone, jsOrZero]
    · intro hnone
      simp [parseAtomLine, hnone, jsOrZero]

theorem parser_totality_and_defaults_witness :
    (parsePDB exContentC9 "P").length =
      ((jsSplitLines exContentC9).filter isRecordLine).length ∧
    ((jsSplitLines exContentC9).filter isRecordLine).length = 1 :=
  ⟨(parser_totality_and_defaults exContentC9 "P").1, by decide⟩

/-! ### C8 amended: exact counting behavior of the chain metric tallies -/

/-- Key test for a chain-metric entry. -/
def metricKeyP (pn cid : String) (m : ChainMetric) : Bool :=
  decide (m.proteinName = pn ∧ m.chainId = cid)

/-- The A endpoint lies on (pn, cid) and the pair is intra. -/
def aSideIntra (pn cid : String) (p : Atom × Atom) : Bool :=
  decide ((p.1.proteinName = pn ∧ p.1.chainID = cid) ∧
    p.1.proteinName = p.2.proteinName ∧ p.1.chainID = p.2.chainID)

/-- The A endpoint lies on (pn, cid) and the pair is not intra. -/
def aSideInter (pn cid : String) (p : Atom × Atom) : Bool :=
  decide ((p.1.proteinName = pn ∧ p.1.chainID = cid) ∧
    ¬(p.1.proteinName = p.2.proteinName ∧ p.1.chainID = p.2.chainID))

/-- The B endpoint lies on (pn, cid) and the structures differ. -/
def bSideInter (pn cid : String) (p : Atom × Atom) : Bool :=
  decide ((p.2.proteinName = pn ∧ p.2.chainID = cid) ∧
    p.1.proteinName ≠ p.2.proteinName)

/-- Add the given amounts to the two interaction tallies of an entry. -/
def addTallies (di de : ℕ) (m : ChainMetric) : ChainMetric :=
  { m with
      intraProteinInteractions := m.intraProteinInteractions + di
      interProteinInteractions := m.interProteinInteractions + de }

theorem find?_updateFirst_of_eqv {α : Type*} (p q : α → Bool) (f : α → α)
    (heqv : ∀ a, p a = q a) (hf : ∀ a, q (f a) = q a) :
    ∀ l : List α, (updateFirst p f l).find? q = (l.find? q).map f := by
  intro l
  induction l with
  | nil => rfl
  | cons x xs ih =>
      by_cases hq : q x = true
      · rw [updateFirst, if_pos (by rw [heqv]; exact hq), List.find?_cons_of_pos _ hq,
          List.find?_cons_of_pos _ (by rw [hf]; exact hq)]
        rfl
      · rw [updateFirst, if_neg (by rw [heqv]; exact hq),
          List.find?_cons_of_neg _ hq, List.find?_cons_of_neg _ hq, ih]

theorem find?_updateFirst_of_disj {α : Type*} (p q : α → Bool) (f : α → α)
    (hdisj : ∀ a, p a = true → q a = false) (hf : ∀ a, q (f a) = q a) :
    ∀ l : List α, (updateFirst p f l).find? q = l.find? q := by
  intro l
  induction l with
  | nil => rfl
  | cons x xs ih =>
      by_cases hp : p x = true
      · rw [updateFirst, if_pos hp,
          List.find?_cons_of_neg _ (by rw [hf]; simp [hdisj x hp]),
          List.find?_cons_of_neg _ (by simp [hdisj x hp])]
      · rw [updateFirst, if_neg hp]
        by_cases hq : q x = true
        · rw [List.find?_cons_of_pos _ hq, List.find?_cons_of_pos _ hq]
        · rw [List.find?_cons_of_neg _ hq, List.find?_cons_of_neg _ hq, ih]

theorem addTallies_zero : addTallies 0 0 = id := by
  funext m
  cases m
  simp [addTallies]

theorem find?_applyMetricUpdate (pn cid : String) (ms : List ChainMetric)
    (ab : Atom × Atom) :
    (applyMetricUpdate ms ab).find? (metricKeyP pn cid) =
      (ms.find? (metricKeyP pn cid)).map
        (addTallies (if aSideIntra pn cid ab = true then 1 else 0)
          ((if aSideInter pn cid ab = true then 1 else 0) +
            (if bSideInter pn cid ab = true then 1 else 0))) := by
  obtain ⟨a, b⟩ := ab
  simp only [applyMetricUpdate]
  by_cases hI : a.proteinName = b.proteinName ∧ a.chainID = b.chainID
  · simp only [if_pos hI, if_pos hI.1]
    have h2 : aSideInter pn cid (a, b) = false := by
      simp only [aSideInter, decide_eq_false_iff_not]
      rintro ⟨_, h⟩
      exact h hI
    have h3 : bSideInter pn cid (a, b) = false := by
      simp only [bSideInter, decide_eq_false_iff_not]
      rintro ⟨_, h⟩
      exact h hI.1
    by_cases hA : a.proteinName = pn ∧ a.chainID = cid
    · have h1 : aSideIntra pn cid (a, b) = true := by
        simp only [aSideIntra, decide_eq_true_eq]
        exact ⟨hA, hI⟩
      rw [find?_updateFirst_of_eqv
        (fun m => decide (m.proteinName = a.proteinName ∧ m.chainId = a.chainID))
        (metricKeyP pn cid) bumpIntraTally
        (fun m => by simp [metricKeyP, hA.1, hA.2]) (fun m => rfl) ms]
      cases hfind : ms.find? (metricKeyP pn cid) with
      | none => simp
      | some m0 =>
          cases m0
          simp [h1, h2, h3, addTallies, bumpIntraTally]
    · have h1 : aSideIntra pn cid (a, b) = false := by
        simp only [aSideIntra, decide_eq_false_iff_not]
        rintro ⟨h, _⟩
        exact hA h
      rw [find?_updateFirst_of_disj
        (fun m => decide (m.proteinName = a.proteinName ∧ m.chainId = a.chainID))
        (metricKeyP pn cid) bumpIntraTally
        (fun m hm => by
          simp only [decide_eq_true_eq] at hm
          simp only [metricKeyP, decide_eq_false_iff_not]
          rintro ⟨g1, g2⟩
          exact hA ⟨hm.1 ▸ g1, hm.2 ▸ g2⟩) (fun m => rfl) ms]
      cases hfind : ms.find? (metricKeyP pn cid) with
      | none => simp
      | some m0 =>
          cases m0
          simp [h1, h2, h3, addTallies]
  · simp only [if_neg hI]
    have h1 : aSideIntra pn cid (a, b) = false := by
      simp only [aSideIntra, decide_eq_false_iff_not]
      rintro ⟨_, h⟩
      exact hI h
    by_cases hP : a.proteinName = b.proteinName
    · simp only [if_pos hP]
      have h3 : bSideInter pn cid (a, b) = false := by
        simp only [bSideInter, decide_eq_false_iff_not]
        rintro ⟨_, h⟩
        exact h hP
      by_cases hA : a.proteinName = pn ∧ a.chainID = cid
      · have h2 : aSideInter pn cid (a, b) = true := by
          simp only [aSideInter, decide_eq_true_eq]
          exact ⟨hA, hI⟩
        rw [find?_updateFirst_of_eqv
          (fun m => decide (m.proteinName = a.proteinName ∧ m.chainId = a.chainID))
          (metricKeyP pn cid) bumpInterTally
          (fun m => by simp [metricKeyP, hA.1, hA.2]) (fun m => rfl) ms]
        cases hfind : ms.find? (metricKeyP pn cid) with
        | none => simp
        | some m0 =>
            cases m0
            simp [h1, h2, h3, addTallies, bumpInterTally]
      · have h2 : aSideInter pn cid (a, b) = false := by
          simp only [aSideInter, decide_eq_false_iff_not]
          rintro ⟨h, _⟩
          exact hA h
        rw [find?_updateFirst_of_disj
          (fun m => decide (m.proteinName = a.proteinName ∧ m.chainId = a.chainID))
          (metricKeyP pn cid) bumpInterTally
          (fun m hm => by
            simp only [decide_eq_true_eq] at hm
            simp only [metricKeyP, decide_eq_false_iff_not]
            rintro ⟨g1, g2⟩
            exact hA ⟨hm.1 ▸ g1, hm.2 ▸ g2⟩) (fun m => rfl) ms]
        cases hfind : ms.find? (metricKeyP pn cid) with
        | none => simp
        | some m0 =>
            cases m0
            simp [h1, h2, h3, addTallies]
    · simp only [if_neg hP]
      by_cases hB : b.proteinName = pn ∧ b.chainID = cid
      · have h3 : bSideInter pn cid (a, b) = true := by
          simp only [bSideInter, decide_eq_true_eq]
          exact ⟨hB, hP⟩
        rw [find?_updateFirst_of_eqv
          (fun m => decide (m.proteinName = b.proteinName ∧ m.chainId = b.chainID))
          (metricKeyP pn cid) bumpInterTally
          (fun m => by simp [metricKeyP, hB.1, hB.2]) (fun m => rfl) _]
        by_cases hA : a.proteinName = pn ∧ a.chainID = cid
        · exact absurd (hA.1.trans hB.1.symm) hP
        · have h2 : aSideInter pn cid (a, b) = false := by
            simp only [aSideInter, decide_eq_false_iff_not]
            rintro ⟨h, _⟩
            exact hA h
          rw [find?_updateFirst_of_disj
            (fun m => decide (m.proteinName = a.proteinName ∧ m.chainId = a.chainID))
            (metricKeyP pn cid) (fun m => bumpInterTally m)
            (fun m hm => by
              simp only [decide_eq_true_eq] at hm
              simp only [metricKeyP, decide_eq_false_iff_not]
              rintro ⟨g1, g2⟩
              exact hA ⟨hm.1 ▸ g1, hm.2 ▸ g2⟩) (fun m => rfl) ms]
          cases hfind : ms.find? (metricKeyP pn cid) with
          | none => simp
          | some m0 =>
              cases m0
              simp [h1, h2, h3, addTallies, bumpInterTally]
      · have h3 : bSideInter pn cid (a, b) = false := by
          simp only [bSideInter, decide_eq_false_iff_not]
          rintro ⟨h, _⟩
          exact hB h
        rw [find?_updateFirst_of_disj
          (fun m => decide (m.proteinName = b.proteinName ∧ m.chainId = b.chainID))
          (metricKeyP pn cid) bumpInterTally
          (fun m hm => by
            simp only [decide_eq_true_eq] at hm
            simp only [metricKeyP, decide_eq_false_iff_not]
            rintro ⟨g1, g2⟩
            exact hB ⟨hm.1 ▸ g1, hm.2 ▸ g2⟩) (fun m => rfl) _]
        by_cases hA : a.proteinName = pn ∧ a.chainID = cid
        · have h2 : aSideInter pn cid (a, b) = true := by
            simp only [aSideInter, decide_eq_true_eq]
            exact ⟨hA, hI⟩
          rw [find?_updateFirst_of_eqv
            (fun m => decide (m.proteinName = a.proteinName ∧ m.chainId = a.chainID))
            (metricKeyP pn cid) (fun m => bumpInterTally m)
            (fun m => by simp [metricKeyP, hA.1, hA.2]) (fun m => rfl) ms]
          cases hfind : ms.find? (metricKeyP pn cid) with
          | none => simp
          | some m0 =>
              cases m0
              simp [h1, h2, h3, addTallies, bumpInterTally]
        · have h2 : aSideInter pn cid (a, b) = false := by
            simp only [aSideInter, decide_eq_false_iff_not]
            rintro ⟨h, _⟩
            exact hA h
          rw [find?_updateFirst_of_disj
            (fun m => decide (m.proteinName = a.proteinName ∧ m.chainId = a.chainID))
            (metricKeyP pn cid) (fun m => bumpInterTally m)
            (fun m hm => by
              simp only [decide_eq_true_eq] at hm
              simp only [metricKeyP, decide_eq_false_iff_not]
              rintro ⟨g1, g2⟩
              exact hA ⟨hm.1 ▸ g1, hm.2 ▸ g2⟩) (fun m => rfl) ms]
          cases hfind : ms.find? (metricKeyP pn cid) with
          | none => simp
          | some m0 =>
              cases m0
              simp [h1, h2, h3, addTallies]

theorem find?_foldl_applyMetricUpdate (pn cid : String) :
    ∀ (pairs : List (Atom × Atom)) (ms : List ChainMetric),
      (pairs.foldl applyMetricUpdate ms).find? (metricKeyP pn cid) =
        (ms.find? (metricKeyP pn cid)).map
          (addTallies (pairs.countP (aSideIntra pn cid))
            (pairs.countP (aSideInter pn cid) + pairs.countP (bSideInter pn cid))) := by
  intro pairs
  induction pairs with
  | nil =>
      intro ms
      simp [addTallies_zero]
  | cons p t ih =>
      intro ms
      rw [List.foldl_cons, ih, find?_applyMetricUpdate, Option.map_map]
      congr 1
      funext m
      cases m
      simp only [Function.comp, addTallies, List.countP_cons]
      congr 1 <;> omega

theorem initialChainMetrics_counters (inp : AtomsByProtein) :
    ∀ m ∈ initialChainMetrics inp,
      m.intraProteinInteractions = 0 ∧ m.interProteinInteractions = 0 := by
  intro m hm
  rw [initialChainMetrics, List.mem_flatMap] at hm
  obtain ⟨e, _, hm⟩ := hm
  rw [List.mem_map] at hm
  obtain ⟨cid, _, rfl⟩ := hm
  exact ⟨rfl, rfl⟩

/-- C8 amended: the intra tally of a chain-metric entry counts exactly the
emitted pairs whose A endpoint lies on that chain and which are intra; the
inter tally counts the non-intra pairs with A endpoint on the chain plus
the different-structure pairs with B endpoint on the chain.  The B side of
a same-structure cross-chain interaction is never counted. -/
theorem chain_metric_counters_formula (inp : AtomsByProtein) (pn cid : String)
    (m : ChainMetric)
    (hm : (chainMetricsOf inp).find? (metricKeyP pn cid) = some m) :
    m.intraProteinInteractions =
      (emittedPairs (allAtomsOf inp)).countP (aSideIntra pn cid) ∧
    m.interProteinInteractions =
      (emittedPairs (allAtomsOf inp)).countP (aSideInter pn cid) +
        (emittedPairs (allAtomsOf inp)).countP (bSideInter pn cid) := by
  rw [chainMetricsOf, List.find?_map] at hm
  have hcomp : (metricKeyP pn cid ∘ fun m : ChainMetric =>
      { m with interactingResidues :=
          interactingResiduesCount inp (chainKey m.proteinName m.chainId) }) =
      metricKeyP pn cid := funext fun m => rfl
  rw [hcomp, find?_foldl_applyMetricUpdate] at hm
  cases h0 : (initialChainMetrics inp).find? (metricKeyP pn cid) with
  | none => rw [h0] at hm; cases hm
  | some m1 =>
      rw [h0] at hm
      simp only [Option.map_some', Option.some.injEq] at hm
      have hz := initialChainMetrics_counters inp m1 (List.mem_of_find?_eq_some h0)
      subst hm
      simp [addTallies, hz.1, hz.2]

/-! ### C7 amended: density sums versus chain metric tallies -/

/-- The per-residue cells recorded for one chain key. -/
def chainCells (key : String) (d : DensityMap) : List (Option ℤ × DensityCell) :=
  ((d.find? fun e => e.1 == key).map Prod.snd).getD []

theorem sum_intra_upsert_inner (rk : Option ℤ) (nm : String) (bo : Bool) :
    ∀ cells : List (Option ℤ × DensityCell),
      ((upsert rk ⟨nm, 0, 0⟩ (bumpCell bo) cells).map fun c => c.2.intra).sum =
        ((cells.map fun c => c.2.intra).sum + if bo = true then 1 else 0) := by
  intro cells
  induction cells with
  | nil => cases bo <;> simp [upsert, bumpCell]
  | cons e rest ih =>
      by_cases h : e.1 = rk
      · cases bo <;> simp [upsert, h, bumpCell] <;> omega
      · simp [upsert, h, ih]
        omega

theorem sum_inter_upsert_inner (rk : Option ℤ) (nm : String) (bo : Bool) :
    ∀ cells : List (Option ℤ × DensityCell),
      ((upsert rk ⟨nm, 0, 0⟩ (bumpCell bo) cells).map fun c => c.2.inter).sum =
        ((cells.map fun c => c.2.inter).sum + if bo = true then 0 else 1) := by
  intro cells
  induction cells with
  | nil => cases bo <;> simp [upsert, bumpCell]
  | cons e rest ih =>
      by_cases h : e.1 = rk
      · cases bo <;> simp [upsert, h, bumpCell] <;> omega
      · simp [upsert, h, ih]
        omega

theorem chainCells_nil (key : String) : chainCells key [] = [] := rfl

theorem chainCells_cons (key k : String) (v : List (Option ℤ × DensityCell))
    (rest : DensityMap) :
    chainCells key ((k, v) :: rest) = if k = key then v else chainCells key rest := by
  by_cases h : k = key
  · simp [chainCells, h]
  · simp [chainCells, h]

theorem chainCells_upsert_same (key : String)
    (g : List (Option ℤ × DensityCell) → List (Option ℤ × DensityCell)) :
    ∀ d : DensityMap, chainCells key (upsert key [] g d) = g (chainCells key d) := by
  intro d
  induction d with
  | nil => simp [upsert, chainCells_cons, chainCells_nil]
  | cons e rest ih =>
      obtain ⟨k, v⟩ := e
      by_cases h : k = key
      · simp [upsert, h, chainCells_cons]
      · simp [upsert, h, chainCells_cons, ih]

theorem chainCells_upsert_other {key k2 : String} (hne : ¬k2 = key)
    (g : List (Option ℤ × DensityCell) → List (Option ℤ × DensityCell)) :
    ∀ d : DensityMap, chainCells key (upsert k2 [] g d) = chainCells key d := by
  intro d
  induction d with
  | nil => simp [upsert, chainCells_cons, chainCells_nil, hne]
  | cons e rest ih =>
      obtain ⟨k, v⟩ := e
      by_cases h : k = k2
      · have hk : ¬k = key := fun hk => hne (h ▸ hk)
        simp [upsert, h, chainCells_cons, hk, hne]
      · simp [upsert, h, chainCells_cons, ih]

theorem intraSum_densitySide (key ck rf : String) (bo : Bool) (d : DensityMap) :
    ((chainCells key (densitySide ck rf bo d)).map fun c => c.2.intra).sum =
      ((chainCells key d).map fun c => c.2.intra).sum +
        if ck = key ∧ bo = true then 1 else 0 := by
  by_cases h : ck = key
  · subst h
    rw [densitySide, chainCells_upsert_same, sum_intra_upsert_inner]
    cases bo <;> simp
  · rw [densitySide, chainCells_upsert_other h]
    simp [h]

theorem interSum_densitySide (key ck rf : String) (bo : Bool) (d : DensityMap) :
    ((chainCells key (densitySide ck rf bo d)).map fun c => c.2.inter).sum =
      ((chainCells key d).map fun c => c.2.inter).sum +
        if ck = key ∧ bo = false then 1 else 0 := by
  by_cases h : ck = key
  · subst h
    rw [densitySide, chainCells_upsert_same, sum_inter_upsert_inner]
    cases bo <;> simp
  · rw [densitySide, chainCells_upsert_other h]
    simp [h]

theorem intraSum_foldl_density (key : String) :
    ∀ (il : List Interaction) (d : DensityMap),
      ((chainCells key (il.foldl densityStep d)).map fun c => c.2.intra).sum =
        ((chainCells key d).map fun c => c.2.intra).sum +
          il.countP (fun i => decide (i.proteinA ++ ":" ++ i.chainA = key) &&
            i.isIntraMolecular) +
          il.countP (fun i => decide (i.proteinB ++ ":" ++ i.chainB = key) &&
            i.isIntraMolecular) := by
  intro il
  induction il with
  | nil => intro d; simp
  | cons i t ih =>
      intro d
      rw [List.foldl_cons, ih, densityStep, intraSum_densitySide, intraSum_densitySide,
        List.countP_cons, List.countP_cons]
      simp only [Bool.and_eq_true, decide_eq_true_eq]
      split_ifs <;> omega

theorem interSum_foldl_density (key : String) :
    ∀ (il : List Interaction) (d : DensityMap),
      ((chainCells key (il.foldl densityStep d)).map fun c => c.2.inter).sum =
        ((chainCells key d).map fun c => c.2.inter).sum +
          il.countP (fun i => decide (i.proteinA ++ ":" ++ i.chainA = key) &&
            !i.isIntraMolecular) +
          il.countP (fun i => decide (i.proteinB ++ ":" ++ i.chainB = key) &&
            !i.isIntraMolecular) := by
  intro il
  induction il with
  | nil => intro d; simp
  | cons i t ih =>
      intro d
      rw [List.foldl_cons, ih, densityStep, interSum_densitySide, interSum_densitySide,
        List.countP_cons, List.countP_cons]
      simp only [Bool.and_eq_true, decide_eq_true_eq, Bool.not_eq_true',
        Bool.not_eq_true]
      split_ifs <;> omega

/-- The entry transform applied per chain when reporting density. -/
def toDensityEntries (cells : List (Option ℤ × DensityCell)) : List DensityEntry :=
  (cells.map fun c =>
    ({ residueSeq := c.1
       residueName := c.2.residueName
       intraCount := c.2.intra
       interCount := c.2.inter
       totalCount := c.2.intra + c.2.inter } : DensityEntry)).insertionSort
    (fun a b => b.totalCount ≤ a.totalCount)

theorem interactionDensityOf_eq (inp : AtomsByProtein) :
    interactionDensityOf inp = (densityOf inp).map fun e => (e.1, toDensityEntries e.2) :=
  rfl

theorem sum_toDensityEntries_intra (cells : List (Option ℤ × DensityCell)) :
    ((toDensityEntries cells).map fun r => r.intraCount).sum =
      (cells.map fun c => c.2.intra).sum := by
  rw [toDensityEntries]
  have hperm := List.perm_insertionSort
    (fun a b : DensityEntry => b.totalCount ≤ a.totalCount)
    (cells.map fun c =>
      ({ residueSeq := c.1, residueName := c.2.residueName, intraCount := c.2.intra,
         interCount := c.2.inter, totalCount := c.2.intra + c.2.inter } : DensityEntry))
  rw [(hperm.map fun r => r.intraCount).sum_eq, List.map_map]
  rfl

theorem sum_toDensityEntries_inter (cells : List (Option ℤ × DensityCell)) :
    ((toDensityEntries cells).map fun r => r.interCount).sum =
      (cells.map fun c => c.2.inter).sum := by
  rw [toDensityEntries]
  have hperm := List.perm_insertionSort
    (fun a b : DensityEntry => b.totalCount ≤ a.totalCount)
    (cells.map fun c =>
      ({ residueSeq := c.1, residueName := c.2.residueName, intraCount := c.2.intra,
         interCount := c.2.inter, totalCount := c.2.intra + c.2.inter } : DensityEntry))
  rw [(hperm.map fun r => r.interCount).sum_eq, List.map_map]
  rfl

/-- The reported intra sum equals the accumulated map's intra sum. -/
theorem densityIntraSum_eq_cells (inp : AtomsByProtein) (key : String) :
    densityIntraSum inp key =
      ((chainCells key (densityOf inp)).map fun c => c.2.intra).sum := by
  rw [densityIntraSum, interactionDensityOf_eq, List.find?_map]
  have hpred : ((fun e : String × List DensityEntry => e.1 == key) ∘
      fun e : String × List (Option ℤ × DensityCell) => (e.1, toDensityEntries e.2)) =
      fun e : String × List (Option ℤ × DensityCell) => e.1 == key :=
    funext fun e => rfl
  rw [hpred]
  cases hf : (densityOf inp).find? (fun e => e.1 == key) with
  | none => simp [chainCells, hf]
  | some e0 =>
      simp only [chainCells, hf, Option.map_some', Option.getD_some]
      exact sum_toDensityEntries_intra e0.2

/-- The reported inter sum equals the accumulated map's inter sum. -/
theorem densityInterSum_eq_cells (inp : AtomsByProtein) (key : String) :
    densityInterSum inp key =
      ((chainCells key (densityOf inp)).map fun c => c.2.inter).sum := by
  rw [densityInterSum, interactionDensityOf_eq, List.find?_map]
  have hpred : ((fun e : String × List DensityEntry => e.1 == key) ∘
      fun e : String × List (Option ℤ × DensityCell) => (e.1, toDensityEntries e.2)) =
      fun e : String × List (Option ℤ × DensityCell) => e.1 == key :=
    funext fun e => rfl
  rw [hpred]
  cases hf : (densityOf inp).find? (fun e => e.1 == key) with
  | none => simp [chainCells, hf]
  | some e0 =>
      simp only [chainCells, hf, Option.map_some', Option.getD_some]
      exact sum_toDensityEntries_inter e0.2

theorem append_colon_inj_list :
    ∀ {l1 r1 l2 r2 : List Char}, ':' ∉ l1 → ':' ∉ l2 →
      l1 ++ ':' :: r1 = l2 ++ ':' :: r2 → l1 = l2 ∧ r1 = r2 := by
  intro l1
  induction l1 with
  | nil =>
      intro r1 l2 r2 h1 h2 h
      cases l2 with
      | nil => simpa using h
      | cons y ys =>
          rw [List.nil_append, List.cons_append, List.cons.injEq] at h
          apply absurd _ h2
          rw [h.1]
          exact List.mem_cons_self y ys
  | cons x xs ih =>
      intro r1 l2 r2 h1 h2 h
      cases l2 with
      | nil =>
          rw [List.cons_append, List.nil_append, List.cons.injEq] at h
          apply absurd _ h1
          rw [← h.1]
          exact List.mem_cons_self x xs
      | cons y ys =>
          rw [List.cons_append, List.cons_append, List.cons.injEq] at h
          obtain ⟨rfl, h⟩ := h
          have := ih (fun hm => h1 (List.mem_cons_of_mem _ hm))
            (fun hm => h2 (List.mem_cons_of_mem _ hm)) h
          exact ⟨by rw [this.1], this.2⟩

/-- Injectivity of the `structure:chain` string key when the structure
label is colon-free (spec §9 notes the collision risk of such keys). -/
theorem chainKey_inj {p1 c1 p2 c2 : String}
    (h1 : ':' ∉ p1.data) (h2 : ':' ∉ p2.data) :
    p1 ++ ":" ++ c1 = p2 ++ ":" ++ c2 ↔ p1 = p2 ∧ c1 = c2 := by
  constructor
  · intro h
    have hd := congrArg String.data h
    rw [String.data_append, String.data_append, String.data_append, String.data_append] at hd
    have hcolon : (":" : String).data = [':'] := rfl
    rw [hcolon] at hd
    simp only [List.append_assoc, List.singleton_append] at hd
    obtain ⟨e1, e2⟩ := append_colon_inj_list h1 h2 hd
    exact ⟨String.ext e1, String.ext e2⟩
  · rintro ⟨rfl, rfl⟩
    rfl

theorem countP_split {α : Type*} (p q r : α → Bool) (l : List α)
    (hsplit : ∀ a ∈ l, r a = (p a || q a)) (hdisj : ∀ a ∈ l, ¬(p a = true ∧ q a = true)) :
    l.countP r = l.countP p + l.countP q := by
  induction l with
  | nil => rfl
  | cons x xs ih =>
      rw [List.countP_cons, List.countP_cons, List.countP_cons,
        ih (fun a ha => hsplit a (List.mem_cons_of_mem _ ha))
          (fun a ha => hdisj a (List.mem_cons_of_mem _ ha))]
      have hs := hsplit x (List.mem_cons_self x xs)
      have hd := hdisj x (List.mem_cons_self x xs)
      cases hp : p x <;> cases hq : q x <;> simp [hp, hq] at hs hd ⊢ <;>
        simp [hs] <;> omega

/-- The B endpoint lies on (pn, cid), same structure, different chain:
the inter-interaction incidences the metric counters miss. -/
def bSideSameProteinCrossChain (pn cid : String) (p : Atom × Atom) : Bool :=
  decide ((p.2.proteinName = pn ∧ p.2.chainID = cid) ∧
    p.1.proteinName = p.2.proteinName ∧ ¬p.1.chainID = p.2.chainID)

/-- C7 amended: relative to a chain-metric entry for (pn, cid) with
colon-free structure labels, the reported density intra sum is twice the
metric intra tally (each intra interaction is recorded once per endpoint),
and the inter sum exceeds the metric inter tally by exactly the number of
same-structure cross-chain pairs recorded with this chain on the B side. -/
theorem density_sums_vs_chain_metrics (inp : AtomsByProtein) (pn cid : String)
    (m : ChainMetric)
    (hm : (chainMetricsOf inp).find? (metricKeyP pn cid) = some m)
    (hpn : ':' ∉ pn.data)
    (hatoms : ∀ a ∈ allAtomsOf inp, ':' ∉ a.proteinName.data) :
    densityIntraSum inp (chainKey pn cid) = 2 * m.intraProteinInteractions ∧
    densityInterSum inp (chainKey pn cid) =
      m.interProteinInteractions +
        (emittedPairs (allAtomsOf inp)).countP (bSideSameProteinCrossChain pn cid) := by
  obtain ⟨hintra, hinter⟩ := chain_metric_counters_formula inp pn cid m hm
  have hsound : ∀ p ∈ emittedPairs (allAtomsOf inp),
      ':' ∉ p.1.proteinName.data ∧ ':' ∉ p.2.proteinName.data := by
    intro p hp
    have hs := emitted_sound hp
    exact ⟨hatoms _ hs.1, hatoms _ hs.2.1⟩
  have hkeyA : ∀ p ∈ emittedPairs (allAtomsOf inp),
      (p.1.proteinName ++ ":" ++ p.1.chainID = chainKey pn cid) ↔
        (p.1.proteinName = pn ∧ p.1.chainID = cid) :=
    fun p hp => chainKey_inj (hsound p hp).1 hpn
  have hkeyB : ∀ p ∈ emittedPairs (allAtomsOf inp),
      (p.2.proteinName ++ ":" ++ p.2.chainID = chainKey pn cid) ↔
        (p.2.proteinName = pn ∧ p.2.chainID = cid) :=
    fun p hp => chainKey_inj (hsound p hp).2 hpn
  constructor
  · rw [densityIntraSum_eq_cells, densityOf, intraSum_foldl_density]
    simp only [chainCells, List.find?_nil, Option.map_none', Option.getD_none,
      List.map_nil, List.sum_nil, Nat.zero_add]
    rw [interactionsOf, List.countP_map, List.countP_map]
    have hA : (emittedPairs (allAtomsOf inp)).countP
        ((fun i => decide (i.proteinA ++ ":" ++ i.chainA = chainKey pn cid) &&
          i.isIntraMolecular) ∘ fun p => mkInteraction p.1 p.2) =
        (emittedPairs (allAtomsOf inp)).countP (aSideIntra pn cid) := by
      apply List.countP_congr
      intro p hp
      simp only [Function.comp, mkInteraction, aSideIntra, Bool.and_eq_true,
        decide_eq_true_eq]
      rw [hkeyA p hp]
    have hB : (emittedPairs (allAtomsOf inp)).countP
        ((fun i => decide (i.proteinB ++ ":" ++ i.chainB = chainKey pn cid) &&
          i.isIntraMolecular) ∘ fun p => mkInteraction p.1 p.2) =
        (emittedPairs (allAtomsOf inp)).countP (aSideIntra pn cid) := by
      apply List.countP_congr
      intro p hp
      simp only [Function.comp, mkInteraction, aSideIntra, Bool.and_eq_true,
        decide_eq_true_eq]
      rw [hkeyB p hp]
      constructor
      · rintro ⟨hb, hi⟩
        exact ⟨⟨hi.1.trans hb.1, hi.2.trans hb.2⟩, hi⟩
      · rintro ⟨ha, hi⟩
        exact ⟨⟨hi.1.symm.trans ha.1, hi.2.symm.trans ha.2⟩, hi⟩
    rw [hA, hB, hintra]
    omega
  · rw [densityInterSum_eq_cells, densityOf, interSum_foldl_density]
    simp only [chainCells, List.find?_nil, Option.map_none', Option.getD_none,
      List.map_nil, List.sum_nil, Nat.zero_add]
    rw [interactionsOf, List.countP_map, List.countP_map]
    have hA : (emittedPairs (allAtomsOf inp)).countP
        ((fun i => decide (i.proteinA ++ ":" ++ i.chainA = chainKey pn cid) &&
          !i.isIntraMolecular) ∘ fun p => mkInteraction p.1 p.2) =
        (emittedPairs (allAtomsOf inp)).countP (aSideInter pn cid) := by
      apply List.countP_congr
      intro p hp
      simp only [Function.comp, mkInteraction, aSideInter, Bool.and_eq_true,
        Bool.not_eq_true', decide_eq_false_iff_not, decide_eq_true_eq]
      rw [hkeyA p hp]
    have hB1 : (emittedPairs (allAtomsOf inp)).countP
        ((fun i => decide (i.proteinB ++ ":" ++ i.chainB = chainKey pn cid) &&
          !i.isIntraMolecular) ∘ fun p => mkInteraction p.1 p.2) =
        (emittedPairs (allAtomsOf inp)).countP
          (fun p => bSideInter pn cid p || bSideSameProteinCrossChain pn cid p) := by
      apply List.countP_congr
      intro p hp
      simp only [Function.comp, mkInteraction, bSideInter, bSideSameProteinCrossChain,
        Bool.and_eq_true, Bool.or_eq_true, Bool.not_eq_true', decide_eq_false_iff_not,
        decide_eq_true_eq]
      rw [hkeyB p hp]
      by_cases hpp : p.1.proteinName = p.2.proteinName
      · constructor
        · rintro ⟨hb, hni⟩
          exact Or.inr ⟨hb, hpp, fun hc => hni ⟨hpp, hc⟩⟩
        · rintro (⟨hb, hne⟩ | ⟨hb, _, hc⟩)
          · exact absurd hpp hne
          · exact ⟨hb, fun hi => hc hi.2⟩
      · constructor
        · rintro ⟨hb, _⟩
          exact Or.inl ⟨hb, hpp⟩
        · rintro (⟨hb, _⟩ | ⟨_, hpe, _⟩)
          · exact ⟨hb, fun hi => hpp hi.1⟩
          · exact absurd hpe hpp
    have hB2 : (emittedPairs (allAtomsOf inp)).countP
        (fun p => bSideInter pn cid p || bSideSameProteinCrossChain pn cid p) =
        (emittedPairs (allAtomsOf inp)).countP (bSideInter pn cid) +
          (emittedPairs (allAtomsOf inp)).countP (bSideSameProteinCrossChain pn cid) := by
      apply countP_split
      · intro a _
        rfl
      · intro a _
        simp only [bSideInter, bSideSameProteinCrossChain, decide_eq_true_eq]
        rintro ⟨⟨_, hne⟩, _, heq, _⟩
        exact hne heq
    rw [hA, hB1, hB2, hinter]
    omega

theorem density_sums_vs_chain_metrics_witness :
    ((chainMetricsOf exInputC7).find? (metricKeyP "P" "A") =
      some { proteinName := "P", chainId := "A", residueCount := 2, atomCount := 2,
             interactingResidues := 2, intraProteinInteractions := 1,
             interProteinInteractions := 0 }) ∧
    densityIntraSum exInputC7 (chainKey "P" "A") = 2 * 1 := by
  have hm : (chainMetricsOf exInputC7).find? (metricKeyP "P" "A") =
      some { proteinName := "P", chainId := "A", residueCount := 2, atomCount := 2,
             interactingResidues := 2, intraProteinInteractions := 1,
             interProteinInteractions := 0 } := by decide
  exact ⟨hm, (density_sums_vs_chain_metrics exInputC7 "P" "A" _ hm (by decide)
    (by decide)).1⟩

theorem chain_metric_counters_formula_witness :
    ((chainMetricsOf exInputC8).find? (metricKeyP "S" "A") =
      some { proteinName := "S", chainId := "A", residueCount := 2, atomCount := 2,
             interactingResidues := 2, intraProteinInteractions := 1,
             interProteinInteractions := 0 }) ∧
    (1 : ℕ) = (emittedPairs (allAtomsOf exInputC8)).countP (aSideIntra "S" "A") := by
  have hm : (chainMetricsOf exInputC8).find? (metricKeyP "S" "A") =
      some { proteinName := "S", chainId := "A", residueCount := 2, atomCount := 2,
             interactingResidues := 2, intraProteinInteractions := 1,
             interProteinInteractions := 0 } := by decide
  exact ⟨hm, (chain_metric_counters_formula exInputC8 "S" "A" _ hm).1⟩

/-! ### C1 amended: grid scan versus brute force under unique serials -/

theorem minmax_eq {a b c d : ℤ}
    (h : ((min a b, max a b) : ℤ × ℤ) = (min c d, max c d)) :
    (a = c ∧ b = d) ∨ (a = d ∧ b = c) := by
  have h1 : min a b = min c d := congrArg Prod.fst h
  have h2 : max a b = max c d := congrArg Prod.snd h
  omega

theorem mem_allPairs {α : Type*} : ∀ {l : List α} {p : α × α},
    p ∈ allPairs l → p.1 ∈ l ∧ p.2 ∈ l := by
  intro l
  induction l with
  | nil => intro p hp; cases hp
  | cons x xs ih =>
      intro p hp
      rw [allPairs, List.mem_append] at hp
      rcases hp with hp | hp
      · rw [List.mem_map] at hp
        obtain ⟨y, hy, rfl⟩ := hp
        exact ⟨List.mem_cons_self x xs, List.mem_cons_of_mem _ hy⟩
      · obtain ⟨h1, h2⟩ := ih hp
        exact ⟨List.mem_cons_of_mem _ h1, List.mem_cons_of_mem _ h2⟩

theorem allPairs_complete {α : Type*} : ∀ {l : List α} {x y : α},
    x ∈ l → y ∈ l → x ≠ y → (x, y) ∈ allPairs l ∨ (y, x) ∈ allPairs l := by
  intro l
  induction l with
  | nil => intro x y hx _ _; cases hx
  | cons a t ih =>
      intro x y hx hy hne
      rcases List.mem_cons.mp hx with rfl | hx1
      · rcases List.mem_cons.mp hy with rfl | hy1
        · exact absurd rfl hne
        · left
          rw [allPairs]
          exact List.mem_append_left _ (List.mem_map_of_mem _ hy1)
      · rcases List.mem_cons.mp hy with rfl | hy1
        · right
          rw [allPairs]
          exact List.mem_append_left _ (List.mem_map_of_mem _ hx1)
        · rcases ih hx1 hy1 hne with h | h
          · left
            rw [allPairs]
            exact List.mem_append_right _ h
          · right
            rw [allPairs]
            exact List.mem_append_right _ h

theorem allPairs_pairwise_keys :
    ∀ {L : List Atom}, ((L.map fun a => a.serial).Nodup) →
      (allPairs L).Pairwise
        (fun p q : Atom × Atom => pairKey p.1 p.2 ≠ pairKey q.1 q.2) := by
  intro L
  induction L with
  | nil => intro _; exact List.Pairwise.nil
  | cons x xs ih =>
      intro h
      rw [List.map_cons, List.nodup_cons] at h
      obtain ⟨hx, hxs⟩ := h
      rw [allPairs, List.pairwise_append]
      refine ⟨?_, ih hxs, ?_⟩
      · rw [List.pairwise_map]
        have hser : xs.Pairwise fun y1 y2 => y1.serial ≠ y2.serial :=
          List.pairwise_map.mp hxs
        refine hser.imp ?_
        intro y1 y2 hne hkey
        rw [pairKey, pairKey] at hkey
        rcases minmax_eq hkey with ⟨_, h2⟩ | ⟨h1, h2⟩
        · exact hne h2
        · exact hne (h2.trans h1)
      · intro p hp q hq hkey
        rw [List.mem_map] at hp
        obtain ⟨y, _, rfl⟩ := hp
        obtain ⟨hq1, hq2⟩ := mem_allPairs hq
        rw [pairKey, pairKey] at hkey
        rcases minmax_eq hkey with ⟨h1, _⟩ | ⟨h1, _⟩
        · apply hx
          rw [h1]
          exact List.mem_map_of_mem _ hq1
        · apply hx
          rw [h1]
          exact List.mem_map_of_mem _ hq2

theorem bruteForce_keys_nodup (L : List Atom)
    (hs : (L.map fun a => a.serial).Nodup) :
    ((bruteForcePairs L).map fun p => pairKey p.1 p.2).Nodup :=
  List.pairwise_map.mpr ((allPairs_pairwise_keys hs).filter _)

theorem mem_emittedKeys_iff_bruteKeys (L : List Atom)
    (hs : (L.map fun a => a.serial).Nodup) (k : ℤ × ℤ) :
    k ∈ (emittedPairs L).map (fun p => pairKey p.1 p.2) ↔
    k ∈ (bruteForcePairs L).map fun p => pairKey p.1 p.2 := by
  constructor
  · intro hk
    rw [List.mem_map] at hk
    obtain ⟨p, hp, rfl⟩ := hk
    obtain ⟨h1, h2, h3, h4⟩ := emitted_sound hp
    have hne : p.1.serial ≠ p.2.serial := by
      intro he
      exact h4 ⟨he, congrArg Atom.proteinName (serial_inj hs h1 h2 he)⟩
    have hnev : p.1 ≠ p.2 := fun he => hne (congrArg Atom.serial he)
    rcases allPairs_complete h1 h2 hnev with hap | hap
    · refine List.mem_map.mpr ⟨(p.1, p.2), ?_, rfl⟩
      rw [bruteForcePairs, List.mem_filter]
      refine ⟨hap, ?_⟩
      simp only [Bool.and_eq_true, decide_eq_true_eq, Bool.not_eq_true',
        decide_eq_false_iff_not]
      exact ⟨h3, h4⟩
    · refine List.mem_map.mpr ⟨(p.2, p.1), ?_, pairKey_comm p.2 p.1⟩
      rw [bruteForcePairs, List.mem_filter]
      refine ⟨hap, ?_⟩
      simp only [Bool.and_eq_true, decide_eq_true_eq, Bool.not_eq_true',
        decide_eq_false_iff_not]
      exact ⟨by rwa [distSq_comm], fun hc => h4 ⟨hc.1.symm, hc.2.symm⟩⟩
  · intro hk
    rw [List.mem_map] at hk
    obtain ⟨q, hq, rfl⟩ := hk
    rw [bruteForcePairs, List.mem_filter] at hq
    obtain ⟨hqa, hqc⟩ := hq
    simp only [Bool.and_eq_true, decide_eq_true_eq, Bool.not_eq_true',
      decide_eq_false_iff_not] at hqc
    obtain ⟨hqm1, hqm2⟩ := mem_allPairs hqa
    have hne : q.1.serial ≠ q.2.serial := fun he =>
      hqc.2 ⟨he, congrArg Atom.proteinName (serial_inj hs hqm1 hqm2 he)⟩
    rcases emitted_complete hs hqm1 hqm2 hne hqc.1 with he | he
    · exact List.mem_map.mpr ⟨_, he, rfl⟩
    · exact List.mem_map.mpr ⟨_, he, pairKey_comm q.2 q.1⟩

theorem emitted_brute_distSq_eq (L : List Atom)
    (hs : (L.map fun a => a.serial).Nodup) :
    ∀ p ∈ emittedPairs L, ∀ q ∈ bruteForcePairs L,
      pairKey p.1 p.2 = pairKey q.1 q.2 → distSq p.1 p.2 = distSq q.1 q.2 := by
  intro p hp q hq hkey
  obtain ⟨hp1, hp2, _, _⟩ := emitted_sound hp
  obtain ⟨hq1, hq2⟩ := mem_allPairs (List.mem_of_mem_filter hq)
  rw [pairKey, pairKey] at hkey
  rcases minmax_eq hkey with ⟨h1, h2⟩ | ⟨h1, h2⟩
  · rw [serial_inj hs hp1 hq1 h1, serial_inj hs hp2 hq2 h2]
  · rw [serial_inj hs hp1 hq2 h1, serial_inj hs hp2 hq1 h2, distSq_comm]

/-- C1 amended: for atom collections with globally distinct serials, the
grid scan and the brute-force reference detector report exactly the same
set of unordered pair keys, each exactly once, with identical squared
distances for each key. -/
theorem grid_equals_bruteforce_of_unique_serials (L : List Atom)
    (hs : (L.map fun a => a.serial).Nodup) :
    ((emittedPairs L).map fun p => pairKey p.1 p.2).Nodup ∧
    ((bruteForcePairs L).map fun p => pairKey p.1 p.2).Nodup ∧
    (∀ k : ℤ × ℤ,
      k ∈ (emittedPairs L).map (fun p => pairKey p.1 p.2) ↔
      k ∈ (bruteForcePairs L).map fun p => pairKey p.1 p.2) ∧
    (∀ p ∈ emittedPairs L, ∀ q ∈ bruteForcePairs L,
      pairKey p.1 p.2 = pairKey q.1 q.2 → distSq p.1 p.2 = distSq q.1 q.2) :=
  ⟨emitted_keys_nodup L, bruteForce_keys_nodup L hs,
    mem_emittedKeys_iff_bruteKeys L hs, emitted_brute_distSq_eq L hs⟩

theorem grid_equals_bruteforce_witness :
    (((allAtomsOf exInputC4).map fun a => a.serial).Nodup) ∧
    ∀ k : ℤ × ℤ,
      k ∈ (emittedPairs (allAtomsOf exInputC4)).map (fun p => pairKey p.1 p.2) ↔
      k ∈ (bruteForcePairs (allAtomsOf exInputC4)).map fun p => pairKey p.1 p.2 :=
  ⟨by decide,
    (grid_equals_bruteforce_of_unique_serials (allAtomsOf exInputC4) (by decide)).2.2.1⟩

/-! ### C6 amended: summary counters under input reordering -/

/-- Two inputs present the same structures (same names, same order) with
the atoms of each structure permuted. -/
def SameStructures (inp₁ inp₂ : AtomsByProtein) : Prop :=
  List.Forall₂ (fun e₁ e₂ => e₁.1 = e₂.1 ∧ e₁.2.Perm e₂.2) inp₁ inp₂

theorem length_updateFirst (p : α → Bool) (f : α → α) :
    ∀ l : List α, (updateFirst p f l).length = l.length := by
  intro l
  induction l with
  | nil => rfl
  | cons x xs ih =>
      rw [updateFirst]
      split
      · rfl
      · rw [List.length_cons, List.length_cons, ih]

theorem length_applyMetricUpdate (ms : List ChainMetric) (ab : Atom × Atom) :
    (applyMetricUpdate ms ab).length = ms.length := by
  simp only [applyMetricUpdate]
  split
  · rw [length_updateFirst]
  · rw [length_updateFirst, length_updateFirst]

theorem length_foldl_applyMetricUpdate (pairs : List (Atom × Atom))
    (ms : List ChainMetric) :
    (pairs.foldl applyMetricUpdate ms).length = ms.length := by
  induction pairs generalizing ms with
  | nil => rfl
  | cons p t ih => rw [List.foldl_cons, ih, length_applyMetricUpdate]

theorem mem_firstOccurrences [DecidableEq α] {x : α} :
    ∀ {l : List α}, x ∈ firstOccurrences l ↔ x ∈ l := by
  intro l
  induction l with
  | nil => simp [firstOccurrences]
  | cons a t ih =>
      rw [firstOccurrences]
      simp only [List.mem_cons, List.mem_filter, ne_eq, decide_not,
        Bool.not_eq_eq_eq_not, Bool.not_true, decide_eq_false_iff_not]
      constructor
      · rintro (rfl | ⟨h1, _⟩)
        · exact Or.inl rfl
        · exact Or.inr (ih.mp h1)
      · rintro (rfl | h)
        · exact Or.inl rfl
        · by_cases hxa : x = a
          · exact Or.inl hxa
          · exact Or.inr ⟨ih.mpr h, hxa⟩

theorem nodup_firstOccurrences [DecidableEq α] :
    ∀ l : List α, (firstOccurrences l).Nodup := by
  intro l
  induction l with
  | nil => exact List.Pairwise.nil
  | cons a t ih =>
      rw [firstOccurrences, List.nodup_cons]
      refine ⟨?_, ih.filter _⟩
      intro hmem
      rw [List.mem_filter] at hmem
      simp at hmem

theorem toFinset_firstOccurrences [DecidableEq α] (l : List α) :
    (firstOccurrences l).toFinset = l.toFinset := by
  ext x
  simp [List.mem_toFinset, mem_firstOccurrences]

theorem length_firstOccurrences [DecidableEq α] (l : List α) :
    (firstOccurrences l).length = l.toFinset.card := by
  rw [← toFinset_firstOccurrences]
  exact (List.toFinset_card_of_nodup (nodup_firstOccurrences l)).symm

theorem length_flatMap_eq {α β : Type*} (f : α → List β) :
    ∀ l : List α, (l.flatMap f).length = (l.map fun a => (f a).length).sum := by
  intro l
  induction l with
  | nil => rfl
  | cons a t ih => simp [List.flatMap_cons, ih]

theorem length_chainMetricsOf (inp : AtomsByProtein) :
    (chainMetricsOf inp).length =
      (inp.map fun e => (e.2.map fun a => a.chainID).toFinset.card).sum := by
  rw [chainMetricsOf, List.length_map, length_foldl_applyMetricUpdate,
    initialChainMetrics, length_flatMap_eq]
  simp only [List.length_map, length_firstOccurrences]

theorem map_eq_of_forall₂ {α β : Type*} {r : α → α → Prop} {f : α → β}
    (hf : ∀ a b, r a b → f a = f b) :
    ∀ {l₁ l₂ : List α}, List.Forall₂ r l₁ l₂ → l₁.map f = l₂.map f := by
  intro l₁ l₂ h
  induction h with
  | nil => rfl
  | cons hab _ ih => simp only [List.map_cons, hf _ _ hab, ih]

theorem allAtomsOf_perm {inp₁ inp₂ : AtomsByProtein}
    (h : List.Forall₂ (fun e₁ e₂ => e₁.1 = e₂.1 ∧ e₁.2.Perm e₂.2) inp₁ inp₂) :
    (allAtomsOf inp₁).Perm (allAtomsOf inp₂) := by
  rw [allAtomsOf, allAtomsOf]
  induction h with
  | nil => exact List.Perm.refl _
  | cons hab _ ih =>
      simp only [List.map_cons, List.flatten_cons]
      exact hab.2.append ih

theorem countP_eq_of_keys {β κ : Type*} (key : β → κ) (pred : β → Bool)
    {l₁ l₂ : List β}
    (h₁ : (l₁.map key).Nodup) (h₂ : (l₂.map key).Nodup)
    (hmem : ∀ k, k ∈ l₁.map key ↔ k ∈ l₂.map key)
    (hpred : ∀ p ∈ l₁, ∀ q ∈ l₂, key p = key q → pred p = pred q) :
    l₁.countP pred = l₂.countP pred := by
  have hn₁ : ((l₁.filter pred).map key).Nodup :=
    h₁.sublist (List.Sublist.map key (List.filter_sublist l₁))
  have hn₂ : ((l₂.filter pred).map key).Nodup :=
    h₂.sublist (List.Sublist.map key (List.filter_sublist l₂))
  have hperm : ((l₁.filter pred).map key).Perm ((l₂.filter pred).map key) := by
    rw [List.perm_ext_iff_of_nodup hn₁ hn₂]
    intro k
    simp only [List.mem_map, List.mem_filter]
    constructor
    · rintro ⟨p, ⟨hp, hpp⟩, rfl⟩
      have hk2 : key p ∈ l₂.map key := (hmem (key p)).mp (List.mem_map_of_mem key hp)
      rw [List.mem_map] at hk2
      obtain ⟨q, hq, hkq⟩ := hk2
      refine ⟨q, ⟨hq, ?_⟩, hkq⟩
      rw [← hpred p hp q hq hkq.symm]
      exact hpp
    · rintro ⟨q, ⟨hq, hqq⟩, rfl⟩
      have hk1 : key q ∈ l₁.map key := (hmem (key q)).mpr (List.mem_map_of_mem key hq)
      rw [List.mem_map] at hk1
      obtain ⟨p, hp, hkp⟩ := hk1
      refine ⟨p, ⟨hp, ?_⟩, hkp⟩
      rw [hpred p hp q hq hkp]
      exact hqq
  have hl := hperm.length_eq
  rw [List.length_map, List.length_map] at hl
  rw [List.countP_eq_length_filter, List.countP_eq_length_filter]
  exact hl

theorem mem_bruteKeys_iff (L : List Atom) (k : ℤ × ℤ) :
    k ∈ (bruteForcePairs L).map (fun p => pairKey p.1 p.2) ↔
      ∃ a b : Atom, a ∈ L ∧ b ∈ L ∧ distSq a b ≤ 25 ∧
        ¬(a.serial = b.serial ∧ a.proteinName = b.proteinName) ∧ pairKey a b = k := by
  constructor
  · intro hk
    rw [List.mem_map] at hk
    obtain ⟨q, hq, rfl⟩ := hk
    rw [bruteForcePairs, List.mem_filter] at hq
    obtain ⟨hqa, hqc⟩ := hq
    simp only [Bool.and_eq_true, decide_eq_true_eq, Bool.not_eq_true',
      decide_eq_false_iff_not] at hqc
    obtain ⟨h1, h2⟩ := mem_allPairs hqa
    exact ⟨q.1, q.2, h1, h2, hqc.1, hqc.2, rfl⟩
  · rintro ⟨a, b, ha, hb, hd, hnd, rfl⟩
    have hne : a ≠ b := fun he =>
      hnd ⟨congrArg Atom.serial he, congrArg Atom.proteinName he⟩
    rcases allPairs_complete ha hb hne with hap | hap
    · refine List.mem_map.mpr ⟨(a, b), ?_, rfl⟩
      rw [bruteForcePairs, List.mem_filter]
      refine ⟨hap, ?_⟩
      simp only [Bool.and_eq_true, decide_eq_true_eq, Bool.not_eq_true',
        decide_eq_false_iff_not]
      exact ⟨hd, hnd⟩
    · refine List.mem_map.mpr ⟨(b, a), ?_, pairKey_comm b a⟩
      rw [bruteForcePairs, List.mem_filter]
      refine ⟨hap, ?_⟩
      simp only [Bool.and_eq_true, decide_eq_true_eq, Bool.not_eq_true',
        decide_eq_false_iff_not]
      exact ⟨by rwa [distSq_comm], fun hc => hnd ⟨hc.1.symm, hc.2.symm⟩⟩

/-- The Boolean intra-molecular test on a raw pair, as written into the
`isIntraMolecular` field. -/
def intraPairP (p : Atom × Atom) : Bool :=
  decide (p.1.proteinName = p.2.proteinName ∧ p.1.chainID = p.2.chainID)

theorem intra_filter_length (inp : AtomsByProtein) :
    ((interactionsOf inp).filter fun i => i.isIntraMolecular).length
      = (emittedPairs (allAtomsOf inp)).countP intraPairP := by
  rw [interactionsOf, List.filter_map, List.length_map, List.countP_eq_length_filter]
  rfl

/-- C6 amended: for inputs listing the same structures with the same atom
multisets (atoms of each structure possibly reordered) and globally
distinct serials, the six summary counters coincide; individual chain
metric rows may still differ (see the order counterexample). -/
theorem summary_invariant_under_reordering (inp₁ inp₂ : AtomsByProtein)
    (hss : SameStructures inp₁ inp₂)
    (hs : ((allAtomsOf inp₁).map fun a => a.serial).Nodup) :
    summaryOf inp₁ = summaryOf inp₂ := by
  have hss' : List.Forall₂ (fun e₁ e₂ => e₁.1 = e₂.1 ∧ e₁.2.Perm e₂.2) inp₁ inp₂ := hss
  have hperm : (allAtomsOf inp₁).Perm (allAtomsOf inp₂) := allAtomsOf_perm hss'
  have hs₂ : ((allAtomsOf inp₂).map fun a => a.serial).Nodup :=
    (hperm.map _).nodup_iff.mp hs
  have hkeys : ∀ k : ℤ × ℤ,
      k ∈ (emittedPairs (allAtomsOf inp₁)).map (fun p => pairKey p.1 p.2) ↔
      k ∈ (emittedPairs (allAtomsOf inp₂)).map fun p => pairKey p.1 p.2 := by
    intro k
    rw [mem_emittedKeys_iff_bruteKeys _ hs, mem_emittedKeys_iff_bruteKeys _ hs₂,
      mem_bruteKeys_iff, mem_bruteKeys_iff]
    constructor
    · rintro ⟨a, b, ha, hb, hrest⟩
      exact ⟨a, b, hperm.mem_iff.mp ha, hperm.mem_iff.mp hb, hrest⟩
    · rintro ⟨a, b, ha, hb, hrest⟩
      exact ⟨a, b, hperm.mem_iff.mpr ha, hperm.mem_iff.mpr hb, hrest⟩
  have hlen : (emittedPairs (allAtomsOf inp₁)).length
      = (emittedPairs (allAtomsOf inp₂)).length := by
    have hp : ((emittedPairs (allAtomsOf inp₁)).map fun p => pairKey p.1 p.2).Perm
        ((emittedPairs (allAtomsOf inp₂)).map fun p => pairKey p.1 p.2) :=
      (List.perm_ext_iff_of_nodup (emitted_keys_nodup _) (emitted_keys_nodup _)).mpr hkeys
    have hl := hp.length_eq
    rwa [List.length_map, List.length_map] at hl
  have hpred : ∀ p ∈ emittedPairs (allAtomsOf inp₁),
      ∀ q ∈ emittedPairs (allAtomsOf inp₂),
      pairKey p.1 p.2 = pairKey q.1 q.2 → intraPairP p = intraPairP q := by
    intro p hp q hq hkey
    obtain ⟨hp1, hp2, _, _⟩ := emitted_sound hp
    obtain ⟨hq1, hq2, _, _⟩ := emitted_sound hq
    rw [← hperm.mem_iff] at hq1 hq2
    rw [pairKey, pairKey] at hkey
    rw [intraPairP, intraPairP]
    rcases minmax_eq hkey with ⟨h1, h2⟩ | ⟨h1, h2⟩
    · rw [serial_inj hs hp1 hq1 h1, serial_inj hs hp2 hq2 h2]
    · rw [serial_inj hs hp1 hq2 h1, serial_inj hs hp2 hq1 h2, decide_eq_decide]
      constructor
      · rintro ⟨u, v⟩
        exact ⟨u.symm, v.symm⟩
      · rintro ⟨u, v⟩
        exact ⟨u.symm, v.symm⟩
  have hintra : (emittedPairs (allAtomsOf inp₁)).countP intraPairP
      = (emittedPairs (allAtomsOf inp₂)).countP intraPairP :=
    countP_eq_of_keys (fun p => pairKey p.1 p.2) intraPairP
      (emitted_keys_nodup _) (emitted_keys_nodup _) hkeys hpred
  have hproteins : proteinsOf inp₁ = proteinsOf inp₂ :=
    map_eq_of_forall₂ (fun a b hab => hab.1) hss'
  have hchainsf : (inp₁.map fun e => ((e.2.map fun a => a.chainID).toFinset.card : ℕ))
      = inp₂.map fun e => ((e.2.map fun a => a.chainID).toFinset.card : ℕ) :=
    map_eq_of_forall₂ (fun a b hab => by
      have hfs : (a.2.map fun x => x.chainID).toFinset
          = (b.2.map fun x => x.chainID).toFinset := by
        ext c
        simp only [List.mem_toFinset]
        exact (hab.2.map _).mem_iff
      rw [hfs]) hss'
  have hchains : (chainMetricsOf inp₁).length = (chainMetricsOf inp₂).length := by
    rw [length_chainMetricsOf, length_chainMetricsOf, hchainsf]
  have htot : (interactionsOf inp₁).length = (interactionsOf inp₂).length := by
    rw [interactionsOf, interactionsOf, List.length_map, List.length_map]
    exact hlen
  have hintraI : ((interactionsOf inp₁).filter fun i => i.isIntraMolecular).length
      = ((interactionsOf inp₂).filter fun i => i.isIntraMolecular).length := by
    rw [intra_filter_length, intra_filter_length]
    exact hintra
  rw [summaryOf, summaryOf]
  simp only [hproteins, hchains, hperm.length_eq, htot, hintraI]

theorem summary_invariant_under_reordering_witness :
    SameStructures exInputC6a exInputC6b ∧
    ((allAtomsOf exInputC6a).map fun a => a.serial).Nodup ∧
    summaryOf exInputC6a = summaryOf exInputC6b := by
  have h1 : SameStructures exInputC6a exInputC6b :=
    List.Forall₂.cons
      ⟨rfl, List.Perm.swap (exAtom 4 "R" "B" 1 0 0 "GLY" "C" 2)
        (exAtom 3 "R" "A" 0 0 0 "GLY" "C" 1) []⟩
      List.Forall₂.nil
  exact ⟨h1, by decide, summary_invariant_under_reordering _ _ h1 (by decide)⟩

end ProteinInsight
